import Mathlib

/-!
Verification of the template-filling engine of `tabellen_formatter.py`.

Cell values are modelled by the variant type `CellVal` (Python `None`,
`int`, `float`, `str`); Python floats are embedded as rationals, strings as
`List Char`.  A worksheet is a bounding box (`maxRow`/`maxCol`, 1-indexed),
a total value grid, a number-format grid and the list of merged ranges.
Cell styles other than the number format (font, border, fill, alignment,
protection) never influence any cell value and are not modelled.
-/

/-- Python cell value: `None`, `int`, `float` (as a rational) or `str`
(as a character list). -/
inductive CellVal where
  | vnone : CellVal
  | vint : Int → CellVal
  | vfloat : ℚ → CellVal
  | vstr : List Char → CellVal
deriving DecidableEq

/-- A merged rectangle `(min_row, min_col, max_row, max_col)` of a sheet,
mirroring `openpyxl`'s `MergedCellRange` bounds. -/
structure MRange where
  minRow : Nat
  minCol : Nat
  maxRow : Nat
  maxCol : Nat
deriving DecidableEq

/-- A worksheet: bounding box, value grid, number-format grid, merges.
Rows and columns are 1-indexed as in `openpyxl`. -/
structure Sheet where
  maxRow : Nat
  maxCol : Nat
  val : Nat → Nat → CellVal
  fmt : Nat → Nat → String
  merges : List MRange

/-- `ws.cell(row=r, column=c).value = v`. -/
def setVal (S : Sheet) (r c : Nat) (v : CellVal) : Sheet :=
  { S with val := fun r' c' => if r' = r ∧ c' = c then v else S.val r' c' }

/-- `ws.cell(row=r, column=c).number_format = f`. -/
def setFmt (S : Sheet) (r c : Nat) (f : String) : Sheet :=
  { S with fmt := fun r' c' => if r' = r ∧ c' = c then f else S.fmt r' c' }

/-! ### Elementary string helpers (Python `str` operations on `List Char`) -/

/-- Boolean "is a leading segment of": `pat` starts `l`
(Python `str.startswith` once `pat` is the needle). -/
def isPre : List Char → List Char → Bool
  | [], _ => true
  | _ :: _, [] => false
  | a :: as, b :: bs => a == b && isPre as bs

/-- Python `needle in s`: some position of `l` starts with `pat`. -/
def containsSub (pat l : List Char) : Bool :=
  (List.range (l.length + 1)).any (fun p => isPre pat (l.drop p))

/-- Python `str.strip()`: remove leading and trailing whitespace. -/
def pyStrip (l : List Char) : List Char :=
  ((l.dropWhile Char.isWhitespace).reverse.dropWhile Char.isWhitespace).reverse

/-! ### `is_numeric_like` (the data-likeness classifier) -/

/-- `is_numeric_like(v)` from the source: `None` is not data-like, numbers
are, a string is data-like when, stripped and with `.` and `,` removed, it
is a nonempty digit string (`str.isdigit`), or when it strips to `"-"` or
`"X"`. -/
def isNumericLike (v : CellVal) : Bool :=
  match v with
  | CellVal.vnone => false
  | CellVal.vint _ => true
  | CellVal.vfloat _ => true
  | CellVal.vstr t =>
      let s := (pyStrip t).filter (fun ch => !(ch == '.' || ch == ','))
      (!s.isEmpty && s.all Char.isDigit)
        || (pyStrip t == "-".toList || pyStrip t == "X".toList)

theorem dropWhile_eq_nil_of_all {p : Char → Bool} :
    ∀ l : List Char, (∀ ch ∈ l, p ch = true) → l.dropWhile p = [] := by
  intro l h
  induction l with
  | nil => rfl
  | cons a as ih =>
      have ha : p a = true := h a (List.mem_cons_self a as)
      rw [List.dropWhile_cons_of_pos ha]
      exact ih (fun ch hc => h ch (List.mem_cons_of_mem a hc))

theorem pyStrip_eq_nil_of_all_ws (s : List Char)
    (h : s.all Char.isWhitespace = true) : pyStrip s = [] := by
  have h' : ∀ ch ∈ s, Char.isWhitespace ch = true := by
    intro ch hc; exact List.all_eq_true.mp h ch hc
  unfold pyStrip
  rw [dropWhile_eq_nil_of_all s h']
  rfl

/-- Claim C10: the data-likeness classifier returns `false` for `None`,
for the empty string, and for every whitespace-only string, while the
placeholders `"-"` and `"X"` are accepted. -/
theorem claim_C10_classifier_blank_false :
    isNumericLike CellVal.vnone = false
    ∧ isNumericLike (CellVal.vstr []) = false
    ∧ (∀ s : List Char, s.all Char.isWhitespace = true →
        isNumericLike (CellVal.vstr s) = false)
    ∧ isNumericLike (CellVal.vstr "-".toList) = true
    ∧ isNumericLike (CellVal.vstr "X".toList) = true := by
  refine ⟨rfl, by decide, ?_, by decide, by decide⟩
  intro s hs
  have hnil : pyStrip s = [] := pyStrip_eq_nil_of_all_ws s hs
  simp [isNumericLike, hnil]

/-- Witness for claim C10 at the concrete whitespace-only string `"  "`. -/
theorem claim_C10_witness :
    "  ".toList.all Char.isWhitespace = true
    ∧ isNumericLike (CellVal.vstr "  ".toList) = false :=
  ⟨by decide, claim_C10_classifier_blank_false.2.2.1 "  ".toList (by decide)⟩

/-! ### Merged ranges and the template-fill copy loop -/

/-- `get_merged_secondary_checker(ws)`: walk the captured merge list; the
first range containing the coordinate decides, and the answer is `true`
unless the coordinate is exactly that range's top-left anchor.  A
coordinate covered by no range is never secondary. -/
def isSecondary (merges : List MRange) (r c : Nat) : Bool :=
  match merges with
  | [] => false
  | rg :: rest =>
      if rg.minRow ≤ r ∧ r ≤ rg.maxRow ∧ rg.minCol ≤ c ∧ c ≤ rg.maxCol then
        !(decide (r = rg.minRow ∧ c = rg.minCol))
      else isSecondary rest r c

/-- Python `range(a, b+1)` as the list of columns (or rows) `a..b`. -/
def colsFromTo (a b : Nat) : List Nat :=
  (List.range (b + 1 - a)).map (· + a)

/-- One body step of the copy loop: skip the write when the destination
cell is a secondary merge cell, otherwise copy the raw value at the same
column index. -/
def writeCell (raw : Sheet) (sec : List MRange) (rRaw rT : Nat)
    (d : Sheet) (c : Nat) : Sheet :=
  if isSecondary sec rT c = true then d else setVal d rT c (raw.val rRaw c)

/-- Inner column loop `for c in range(cStart, cEnd+1)` of the copy loop. -/
def copyRowVals (raw : Sheet) (sec : List MRange) (rRaw rT cStart cEnd : Nat)
    (d : Sheet) : Sheet :=
  (colsFromTo cStart cEnd).foldl (writeCell raw sec rRaw rT) d

/-- Outer loop `for offset in range(n)` of `build_table1_workbook` (and of
the analogous loops for the other tables): row `fdrT + offset` of the
destination receives row `fdrRaw + offset` of the raw sheet. -/
def copyWindow (raw : Sheet) (sec : List MRange) (fdrRaw fdrT n cStart cEnd : Nat)
    (d : Sheet) : Sheet :=
  (List.range n).foldl
    (fun d off => copyRowVals raw sec (fdrRaw + off) (fdrT + off) cStart cEnd d) d

/-- `n_rows = min(ft_raw - fdr_raw, ft_t - fdr_t)` as a (possibly
negative) integer; `range(n_rows)` iterates `n_rows.toNat` times. -/
def nRowsInt (fdrRaw ftRaw fdrT ftT : Nat) : Int :=
  min ((ftRaw : Int) - (fdrRaw : Int)) ((ftT : Int) - (fdrT : Int))

theorem setVal_val (S : Sheet) (r c r' c' : Nat) (v : CellVal) :
    (setVal S r c v).val r' c' = if r' = r ∧ c' = c then v else S.val r' c' := rfl

theorem foldl_writeCell_val_ne_row (raw : Sheet) (sec : List MRange)
    (rRaw rT r c : Nat) (h : r ≠ rT) :
    ∀ (cols : List Nat) (d : Sheet),
      (cols.foldl (writeCell raw sec rRaw rT) d).val r c = d.val r c := by
  intro cols
  induction cols with
  | nil => intro d; rfl
  | cons c' cols' ih =>
      intro d
      rw [List.foldl_cons, ih]
      unfold writeCell
      split
      · rfl
      · rw [setVal_val]
        simp [h]

theorem copyRowVals_val_ne_row (raw : Sheet) (sec : List MRange)
    (rRaw rT cStart cEnd r c : Nat) (h : r ≠ rT) (d : Sheet) :
    (copyRowVals raw sec rRaw rT cStart cEnd d).val r c = d.val r c :=
  foldl_writeCell_val_ne_row raw sec rRaw rT r c h _ d

theorem foldl_writeCell_val_sec (raw : Sheet) (sec : List MRange)
    (rRaw rT c : Nat) (h : isSecondary sec rT c = true) :
    ∀ (cols : List Nat) (d : Sheet),
      (cols.foldl (writeCell raw sec rRaw rT) d).val rT c = d.val rT c := by
  intro cols
  induction cols with
  | nil => intro d; rfl
  | cons c' cols' ih =>
      intro d
      rw [List.foldl_cons, ih]
      unfold writeCell
      split
      · rfl
      · rw [setVal_val]
        rename_i hsec
        by_cases hc : c = c'
        · subst hc; exact absurd h hsec
        · simp [hc]

theorem copyWindow_val_sec (raw : Sheet) (sec : List MRange)
    (fdrRaw fdrT n cStart cEnd r c : Nat) (h : isSecondary sec r c = true)
    (d : Sheet) :
    (copyWindow raw sec fdrRaw fdrT n cStart cEnd d).val r c = d.val r c := by
  unfold copyWindow
  generalize (List.range n) = offs
  induction offs generalizing d with
  | nil => rfl
  | cons off offs' ih =>
      rw [List.foldl_cons, ih]
      by_cases hr : r = fdrT + off
      · subst hr
        exact foldl_writeCell_val_sec raw sec (fdrRaw + off) (fdrT + off) c h _ d
      · exact copyRowVals_val_ne_row raw sec _ _ _ _ r c hr d

theorem isSecondary_true_of_nonanchor (merges : List MRange) (r c : Nat)
    (hdisj : merges.Pairwise (fun a b =>
      a.maxRow < b.minRow ∨ b.maxRow < a.minRow
        ∨ a.maxCol < b.minCol ∨ b.maxCol < a.minCol))
    (rg : MRange) (hmem : rg ∈ merges)
    (hin : rg.minRow ≤ r ∧ r ≤ rg.maxRow ∧ rg.minCol ≤ c ∧ c ≤ rg.maxCol)
    (hanchor : ¬(r = rg.minRow ∧ c = rg.minCol)) :
    isSecondary merges r c = true := by
  induction merges with
  | nil => cases hmem
  | cons m rest ih =>
      rw [List.pairwise_cons] at hdisj
      rcases List.mem_cons.mp hmem with heq | htail
      · subst heq
        unfold isSecondary
        rw [if_pos hin]
        simp only [Bool.not_eq_true', decide_eq_false_iff_not]
        exact hanchor
      · unfold isSecondary
        split
        · rename_i hm
          exact absurd (hdisj.1 rg htail) (by omega)
        · exact ih hdisj.2 htail

/-- Claim C1: the template-fill copy loop never writes to a secondary
(non-anchor) cell of any merged range of the destination sheet: if
`(r, c)` lies inside some merged range but is not that range's top-left
anchor, its value after the fill equals its value before.  The merges of a
well-formed sheet are pairwise non-overlapping, which is taken as a
hypothesis. -/
theorem claim_C1_no_write_to_secondary
    (raw d : Sheet) (fdrRaw fdrT n cStart cEnd r c : Nat)
    (hdisj : d.merges.Pairwise (fun a b =>
      a.maxRow < b.minRow ∨ b.maxRow < a.minRow
        ∨ a.maxCol < b.minCol ∨ b.maxCol < a.minCol))
    (rg : MRange) (hmem : rg ∈ d.merges)
    (hin : rg.minRow ≤ r ∧ r ≤ rg.maxRow ∧ rg.minCol ≤ c ∧ c ≤ rg.maxCol)
    (hanchor : ¬(r = rg.minRow ∧ c = rg.minCol)) :
    (copyWindow raw d.merges fdrRaw fdrT n cStart cEnd d).val r c = d.val r c :=
  copyWindow_val_sec raw d.merges fdrRaw fdrT n cStart cEnd r c
    (isSecondary_true_of_nonanchor d.merges r c hdisj rg hmem hin hanchor) d

/-- A tiny raw sheet for witnesses: every cell holds the integer 7. -/
def rawSheetEx : Sheet :=
  { maxRow := 9, maxCol := 9, val := fun _ _ => CellVal.vint 7,
    fmt := fun _ _ => "General", merges := [] }

/-- A tiny destination sheet for the claim C1 witness: one merged range
`A1:B2`, every cell holding the text `"t"`. -/
def destSheetEx : Sheet :=
  { maxRow := 9, maxCol := 9, val := fun _ _ => CellVal.vstr "t".toList,
    fmt := fun _ _ => "General",
    merges := [⟨1, 1, 2, 2⟩] }

/-- Witness for claim C1: filling `destSheetEx` (merge `A1:B2`) leaves the
secondary cell `(1, 2)` unchanged. -/
theorem claim_C1_witness :
    (copyWindow rawSheetEx destSheetEx.merges 1 1 3 1 9 destSheetEx).val 1 2
      = destSheetEx.val 1 2 :=
  claim_C1_no_write_to_secondary rawSheetEx destSheetEx 1 1 3 1 9 1 2
    (by simp [destSheetEx]) ⟨1, 1, 2, 2⟩ (by simp [destSheetEx])
    (by decide) (by decide)

theorem mem_colsFromTo (a b c : Nat) : c ∈ colsFromTo a b ↔ a ≤ c ∧ c ≤ b := by
  simp only [colsFromTo, List.mem_map, List.mem_range]
  constructor
  · rintro ⟨j, hj, rfl⟩; omega
  · intro h; exact ⟨c - a, by omega, by omega⟩

theorem foldl_copyRow_val_not_target (raw : Sheet) (sec : List MRange)
    (fdrRaw fdrT cStart cEnd r c : Nat) :
    ∀ (offs : List Nat) (d : Sheet), (∀ off ∈ offs, fdrT + off ≠ r) →
      ((offs.foldl
        (fun d off => copyRowVals raw sec (fdrRaw + off) (fdrT + off) cStart cEnd d)
        d).val r c = d.val r c) := by
  intro offs
  induction offs with
  | nil => intro d _; rfl
  | cons off offs' ih =>
      intro d h
      rw [List.foldl_cons, ih _ (fun o ho => h o (List.mem_cons_of_mem off ho))]
      exact copyRowVals_val_ne_row raw sec _ _ _ _ r c
        (fun he => h off (List.mem_cons_self off offs') he.symm) d

theorem foldl_writeCell_val_ne_col (raw : Sheet) (sec : List MRange)
    (rRaw rT r c : Nat) :
    ∀ (cols : List Nat) (d : Sheet), c ∉ cols →
      (cols.foldl (writeCell raw sec rRaw rT) d).val r c = d.val r c := by
  intro cols
  induction cols with
  | nil => intro d _; rfl
  | cons c' cols' ih =>
      intro d h
      rw [List.foldl_cons, ih _ (fun hm => h (List.mem_cons_of_mem c' hm))]
      unfold writeCell
      split
      · rfl
      · rw [setVal_val]
        have : c ≠ c' := fun he => h (he ▸ List.mem_cons_self c' cols')
        simp [this]

theorem foldl_writeCell_val_in (raw : Sheet) (sec : List MRange)
    (rRaw rT c : Nat) (hsec : isSecondary sec rT c = false) :
    ∀ (cols : List Nat) (d : Sheet), c ∈ cols →
      (cols.foldl (writeCell raw sec rRaw rT) d).val rT c = raw.val rRaw c := by
  intro cols
  induction cols with
  | nil => intro d h; cases h
  | cons c' cols' ih =>
      intro d h
      by_cases hm : c ∈ cols'
      · rw [List.foldl_cons]; exact ih _ hm
      · have hc : c = c' := by
          rcases List.mem_cons.mp h with h1 | h1
          · exact h1
          · exact absurd h1 hm
        subst hc
        rw [List.foldl_cons, foldl_writeCell_val_ne_col raw sec rRaw rT rT c _ _ hm]
        unfold writeCell
        rw [if_neg (by simp [hsec]), setVal_val]
        simp

theorem copyWindow_val_in (raw : Sheet) (sec : List MRange)
    (fdrRaw fdrT n cStart cEnd k c : Nat) (hk : k < n)
    (hsec : isSecondary sec (fdrT + k) c = false)
    (hc1 : cStart ≤ c) (hc2 : c ≤ cEnd) (d : Sheet) :
    (copyWindow raw sec fdrRaw fdrT n cStart cEnd d).val (fdrT + k) c
      = raw.val (fdrRaw + k) c := by
  unfold copyWindow
  have main : ∀ (offs : List Nat) (d : Sheet), k ∈ offs →
      ((offs.foldl
        (fun d off => copyRowVals raw sec (fdrRaw + off) (fdrT + off) cStart cEnd d)
        d).val (fdrT + k) c = raw.val (fdrRaw + k) c) := by
    intro offs
    induction offs with
    | nil => intro d h; cases h
    | cons off offs' ih =>
        intro d hmem
        by_cases hm : k ∈ offs'
        · rw [List.foldl_cons]; exact ih _ hm
        · have hoff : off = k := by
            rcases List.mem_cons.mp hmem with h1 | h1
            · exact h1.symm
            · exact absurd h1 hm
          have hne : ∀ o ∈ offs', fdrT + o ≠ fdrT + k := by
            intro o ho he
            have ho' : o = k := by omega
            exact hm (ho' ▸ ho)
          rw [List.foldl_cons, hoff,
            foldl_copyRow_val_not_target raw sec fdrRaw fdrT cStart cEnd _ c offs' _ hne]
          unfold copyRowVals
          exact foldl_writeCell_val_in raw sec _ _ c hsec _ _
            ((mem_colsFromTo cStart cEnd c).mpr ⟨hc1, hc2⟩)
  exact main (List.range n) d (List.mem_range.mpr hk)

theorem copyWindow_val_outside (raw : Sheet) (sec : List MRange)
    (fdrRaw fdrT n cStart cEnd r c : Nat) (h : r < fdrT ∨ fdrT + n ≤ r)
    (d : Sheet) :
    (copyWindow raw sec fdrRaw fdrT n cStart cEnd d).val r c = d.val r c := by
  unfold copyWindow
  refine foldl_copyRow_val_not_target raw sec fdrRaw fdrT cStart cEnd r c _ d ?_
  intro off hoff
  have : off < n := List.mem_range.mp hoff
  omega

/-- Claim C3: the copy window has size `n = min(ft_raw - fdr_raw,
ft_t - fdr_t)`.  Only destination rows `fdrT .. fdrT + n - 1` are written:
every row before `fdrT` or at offset `n` or beyond keeps its template
value; when `n ≤ 0` the fill is a no-op (and, being a total function,
raises no error); and a row inside the window receives the raw row at the
same offset wherever the destination cell is in the copied column range
and not a secondary merge cell. -/
theorem claim_C3_window_sizing (raw d : Sheet) (sec : List MRange)
    (fdrRaw ftRaw fdrT ftT cStart cEnd : Nat) :
    (nRowsInt fdrRaw ftRaw fdrT ftT ≤ 0 → ∀ r c,
      (copyWindow raw sec fdrRaw fdrT (nRowsInt fdrRaw ftRaw fdrT ftT).toNat
        cStart cEnd d).val r c = d.val r c)
    ∧ (∀ r c, r < fdrT ∨ fdrT + (nRowsInt fdrRaw ftRaw fdrT ftT).toNat ≤ r →
      (copyWindow raw sec fdrRaw fdrT (nRowsInt fdrRaw ftRaw fdrT ftT).toNat
        cStart cEnd d).val r c = d.val r c)
    ∧ (∀ k c, k < (nRowsInt fdrRaw ftRaw fdrT ftT).toNat →
        isSecondary sec (fdrT + k) c = false → cStart ≤ c → c ≤ cEnd →
      (copyWindow raw sec fdrRaw fdrT (nRowsInt fdrRaw ftRaw fdrT ftT).toNat
        cStart cEnd d).val (fdrT + k) c = raw.val (fdrRaw + k) c) := by
  refine ⟨?_, ?_, ?_⟩
  · intro h r c
    have h0 : (nRowsInt fdrRaw ftRaw fdrT ftT).toNat = 0 := by omega
    rw [h0]
    rfl
  · intro r c h
    exact copyWindow_val_outside raw sec fdrRaw fdrT _ cStart cEnd r c h d
  · intro k c hk hsec hc1 hc2
    exact copyWindow_val_in raw sec fdrRaw fdrT _ cStart cEnd k c hk hsec hc1 hc2 d

/-- Witness for claim C3 with windows `fdr_raw = 2, ft_raw = 4` (size 2)
and `fdr_t = 3, ft_t = 6` (size 3), so `n = 2`: row `5 = fdrT + n` is
untouched and row `3 = fdrT + 0` receives raw row `2`. -/
theorem claim_C3_witness :
    (copyWindow rawSheetEx [] 2 3 (nRowsInt 2 4 3 6).toNat 1 9
        destSheetEx).val 5 1 = destSheetEx.val 5 1
    ∧ (copyWindow rawSheetEx [] 2 3 (nRowsInt 2 4 3 6).toNat 1 9
        destSheetEx).val (3 + 0) 1 = rawSheetEx.val (2 + 0) 1 :=
  ⟨(claim_C3_window_sizing rawSheetEx destSheetEx [] 2 4 3 6 1 9).2.1 5 1
      (by decide),
   (claim_C3_window_sizing rawSheetEx destSheetEx [] 2 4 3 6 1 9).2.2 0 1
      (by decide) (by decide) (by decide) (by decide)⟩

/-! ### Region detection: first data row and footnote boundary -/

/-- Ascending scan `for r in range(st, st + fuel)`: first index where `p`
holds, else `none`. -/
def findFromTo (p : Nat → Bool) : Nat → Nat → Option Nat
  | _, 0 => none
  | st, fuel + 1 => if p st then some st else findFromTo p (st + 1) fuel

/-- Column-1 footnote test of `detect_data_and_footer`: the value is a
string whose stripped text starts with the footnote marker `"-"`. -/
def dashStartB (v : CellVal) : Bool :=
  match v with
  | CellVal.vstr s => isPre "-".toList (pyStrip s)
  | _ => false

/-- `detect_data_and_footer(sheet, numeric_col)`: scan rows `1..max_row`
for the first data-like cell in the probe column (fallback row 1), and
independently for the first column-1 text starting with `"-"` (fallback
`max_row + 1`). -/
def detectDataAndFooter (S : Sheet) (numericCol : Nat) : Nat × Nat :=
  ((findFromTo (fun r => isNumericLike (S.val r numericCol)) 1 S.maxRow).getD 1,
   (findFromTo (fun r => dashStartB (S.val r 1)) 1 S.maxRow).getD (S.maxRow + 1))

theorem findFromTo_eq_none (p : Nat → Bool) :
    ∀ (fuel st : Nat), (∀ r, st ≤ r → r < st + fuel → p r = false) →
      findFromTo p st fuel = none := by
  intro fuel
  induction fuel with
  | zero => intro st _; rfl
  | succ f ih =>
      intro st h
      unfold findFromTo
      rw [if_neg (by simp [h st (le_refl st) (by omega)])]
      exact ih (st + 1) (fun r h1 h2 => h r (by omega) (by omega))

/-- Claim C6: region detection is total and uses the documented fallbacks:
with no data-like cell in the probe column among rows `1..max_row` the
first data row is 1, and with no column-1 text starting with the footnote
marker the footnote boundary is `max_row + 1`; being a total function,
detection never raises. -/
theorem claim_C6_detection_fallbacks (S : Sheet) (numericCol : Nat) :
    ((∀ r, r ≤ S.maxRow → 1 ≤ r → isNumericLike (S.val r numericCol) = false) →
      (detectDataAndFooter S numericCol).1 = 1)
    ∧ ((∀ r, r ≤ S.maxRow → 1 ≤ r → dashStartB (S.val r 1) = false) →
      (detectDataAndFooter S numericCol).2 = S.maxRow + 1) := by
  constructor
  · intro h
    unfold detectDataAndFooter
    rw [findFromTo_eq_none _ S.maxRow 1 (fun r h1 h2 => h r (by omega) h1)]
    rfl
  · intro h
    unfold detectDataAndFooter
    rw [findFromTo_eq_none _ S.maxRow 1 (fun r h1 h2 => h r (by omega) h1)]
    rfl

/-- A sheet with only header-like text, for the claim C6 witness. -/
def textSheetEx : Sheet :=
  { maxRow := 3, maxCol := 4, val := fun _ _ => CellVal.vstr "Kopf".toList,
    fmt := fun _ _ => "General", merges := [] }

/-- Witness for claim C6 on a sheet with no data-like cell and no footnote
marker: both fallbacks fire. -/
theorem claim_C6_witness :
    (detectDataAndFooter textSheetEx 4).1 = 1
    ∧ (detectDataAndFooter textSheetEx 4).2 = textSheetEx.maxRow + 1 :=
  ⟨(claim_C6_detection_fallbacks textSheetEx 4).1 (by decide),
   (claim_C6_detection_fallbacks textSheetEx 4).2 (by decide)⟩

/-! ### Block splitting for the multi-block table (table 5) -/

/-- `re.match(r"Bayern\s+\d\)", v.strip())`: the stripped text starts with
`"Bayern"`, then one or more whitespace characters, then a digit and a
closing parenthesis (anything may follow). -/
def bayernMatch (t : List Char) : Bool :=
  isPre "Bayern".toList t &&
    (!((t.drop 6).takeWhile Char.isWhitespace).isEmpty &&
      (match (t.drop 6).dropWhile Char.isWhitespace with
       | d :: pch :: _ => d.isDigit && pch == ')'
       | _ => false))

/-- A column-2 cell starts a block when it is a string matching the label
pattern. -/
def labelPred (v : CellVal) : Bool :=
  match v with
  | CellVal.vstr s => bayernMatch (pyStrip s)
  | _ => false

/-- The ascending list of block-start rows (label matches in column 2). -/
def startsOf (S : Sheet) : List Nat :=
  (colsFromTo 1 S.maxRow).filter (fun r => labelPred (S.val r 2))

/-- Python `v in (None, "")`: the cell is empty. -/
def isEmptyVal (v : CellVal) : Bool :=
  v == CellVal.vnone || v == CellVal.vstr []

/-- A row has a non-empty cell among the probe columns `1..9`
(`range(1, 10)` in the source). -/
def rowNonempty (S : Sheet) (r : Nat) : Bool :=
  (colsFromTo 1 9).any (fun c => !isEmptyVal (S.val r c))

/-- The trimming loop `for rr in range(start, end+1)`: keep the last row
with a non-empty probe cell, defaulting to `start`. -/
def lastNonempty (S : Sheet) (start stop : Nat) : Nat :=
  (colsFromTo start stop).foldl
    (fun acc rr => if rowNonempty S rr = true then rr else acc) start

/-- Block `i`'s naive end: the next start minus one, or `max_row` for the
last block. -/
def naiveEnd (S : Sheet) (i : Nat) : Nat :=
  if i + 1 < (startsOf S).length then (startsOf S).getD (i + 1) 0 - 1 else S.maxRow

/-- `block_ranges`: each start paired with the trimmed end. -/
def blockRanges (S : Sheet) : List (Nat × Nat) :=
  (List.range (startsOf S).length).map
    (fun i => ((startsOf S).getD i 0,
      lastNonempty S ((startsOf S).getD i 0) (naiveEnd S i)))

theorem foldl_rows_spec (S : Sheet) (s : Nat) :
    ∀ (k : Nat) (acc : Nat),
      ((((List.range k).map (· + s)).foldl
          (fun a rr => if rowNonempty S rr = true then rr else a) acc = acc)
        ∧ ∀ j, j < k → rowNonempty S (j + s) = false)
      ∨ (∃ j, j < k ∧ rowNonempty S (j + s) = true
          ∧ (((List.range k).map (· + s)).foldl
              (fun a rr => if rowNonempty S rr = true then rr else a) acc = j + s)
          ∧ ∀ j', j < j' → j' < k → rowNonempty S (j' + s) = false) := by
  intro k
  induction k with
  | zero => intro acc; left; exact ⟨rfl, fun j hj => absurd hj (by omega)⟩
  | succ n ih =>
      intro acc
      rw [List.range_succ, List.map_append, List.foldl_append]
      by_cases hlast : rowNonempty S (n + s) = true
      · right
        refine ⟨n, by omega, hlast, ?_, fun j' h1 h2 => absurd h1 (by omega)⟩
        simp [hlast]
      · have hlast' : rowNonempty S (n + s) = false := by
          cases h : rowNonempty S (n + s)
          · rfl
          · exact absurd h hlast
        rcases ih acc with ⟨heq, hall⟩ | ⟨j, hj, hne, heq, hmax⟩
        · left
          refine ⟨?_, ?_⟩
          · simp [hlast', heq]
          · intro j hj
            by_cases hjn : j < n
            · exact hall j hjn
            · have : j = n := by omega
              rw [this]; exact hlast'
        · right
          refine ⟨j, by omega, hne, ?_, ?_⟩
          · simp [hlast', heq]
          · intro j' h1 h2
            by_cases hjn : j' < n
            · exact hmax j' h1 hjn
            · have : j' = n := by omega
              rw [this]; exact hlast'

theorem lastNonempty_spec (S : Sheet) (s e : Nat) (hse : s ≤ e)
    (hs : rowNonempty S s = true) :
    s ≤ lastNonempty S s e ∧ lastNonempty S s e ≤ e
      ∧ rowNonempty S (lastNonempty S s e) = true
      ∧ ∀ r, lastNonempty S s e < r → r ≤ e → rowNonempty S r = false := by
  unfold lastNonempty colsFromTo
  rcases foldl_rows_spec S s (e + 1 - s) s with ⟨heq, hall⟩ | ⟨j, hj, hne, heq, hmax⟩
  · exact absurd (show rowNonempty S (0 + s) = false from hall 0 (by omega))
      (by simpa using hs)
  · rw [heq]
    refine ⟨by omega, by omega, hne, ?_⟩
    intro r h1 h2
    have := hmax (r - s) (by omega) (by omega)
    have hr : r - s + s = r := by omega
    rwa [hr] at this

theorem labelPred_nonempty (v : CellVal) (h : labelPred v = true) :
    isEmptyVal v = false := by
  cases v with
  | vnone => exact absurd h (by decide)
  | vint n => exact absurd h (by simp [labelPred])
  | vfloat q => exact absurd h (by simp [labelPred])
  | vstr t =>
      cases t with
      | nil => exact absurd h (by decide)
      | cons a as => rfl

theorem rowNonempty_of_label (S : Sheet) (r : Nat)
    (h : labelPred (S.val r 2) = true) : rowNonempty S r = true := by
  unfold rowNonempty
  refine List.any_eq_true.mpr ⟨2, (mem_colsFromTo 1 9 2).mpr (by omega), ?_⟩
  rw [labelPred_nonempty (S.val r 2) h]
  rfl

theorem startsOf_sorted (S : Sheet) : (startsOf S).Pairwise (· < ·) := by
  unfold startsOf colsFromTo
  refine List.Pairwise.sublist (List.filter_sublist _) ?_
  exact List.Pairwise.map (· + 1) (fun a b (hab : a < b) => by simpa using hab)
    (List.pairwise_lt_range _)

theorem getD_map_range {α : Type} (f : Nat → α) (n i : Nat) (d : α)
    (h : i < n) : (((List.range n).map f).getD i d) = f i := by
  rw [List.getD_eq_get _ _ (by simpa using h)]
  simp

/-- Claim C7: block splitting trims trailing blank rows.  Block `i` starts
at the `i`-th label row `s`, its end lies between `s` and the naive end
(next start minus one, or `max_row` for the last block), the end row has a
non-empty cell among the probe columns `1..9`, and every row strictly
between the end and the naive end is blank in those columns. -/
theorem claim_C7_block_trimming (S : Sheet) (i : Nat)
    (h : i < (blockRanges S).length) :
    ((blockRanges S).getD i (0, 0)).1 = (startsOf S).getD i 0
    ∧ ((blockRanges S).getD i (0, 0)).1 ≤ ((blockRanges S).getD i (0, 0)).2
    ∧ ((blockRanges S).getD i (0, 0)).2 ≤ naiveEnd S i
    ∧ rowNonempty S ((blockRanges S).getD i (0, 0)).2 = true
    ∧ ∀ r, ((blockRanges S).getD i (0, 0)).2 < r → r ≤ naiveEnd S i →
        rowNonempty S r = false := by
  have hlen : i < (startsOf S).length := by
    simpa [blockRanges] using h
  unfold blockRanges
  rw [getD_map_range _ _ i _ hlen]
  have hmem : (startsOf S).getD i 0 ∈ startsOf S := by
    rw [List.getD_eq_get _ _ hlen]
    exact List.get_mem _ _ _
  have hmem' := hmem
  unfold startsOf at hmem'
  rw [List.mem_filter] at hmem'
  have hrow : 1 ≤ (startsOf S).getD i 0 ∧ (startsOf S).getD i 0 ≤ S.maxRow :=
    (mem_colsFromTo _ _ _).mp hmem'.1
  have hne : rowNonempty S ((startsOf S).getD i 0) = true :=
    rowNonempty_of_label S _ hmem'.2
  have hse : (startsOf S).getD i 0 ≤ naiveEnd S i := by
    unfold naiveEnd
    split
    · rename_i hi1
      have hlt : (startsOf S).get ⟨i, hlen⟩ < (startsOf S).get ⟨i + 1, hi1⟩ := by
        have hp := List.pairwise_iff_get.mp (startsOf_sorted S)
        exact hp ⟨i, hlen⟩ ⟨i + 1, hi1⟩ (by simp)
      rw [List.getD_eq_get _ _ hlen, List.getD_eq_get _ _ hi1]
      omega
    · exact hrow.2
  have hspec := lastNonempty_spec S ((startsOf S).getD i 0) (naiveEnd S i) hse hne
  exact ⟨rfl, hspec.1, hspec.2.1, hspec.2.2.1, hspec.2.2.2⟩

/-- The spec's block-trimming example: label rows at 5 and 20, data in
rows 6..17, rows 18 and 19 blank in the probe columns. -/
def blockSheetEx : Sheet :=
  { maxRow := 20, maxCol := 9,
    val := fun r c =>
      if (r = 5 ∨ r = 20) ∧ c = 2 then CellVal.vstr "Bayern 1)".toList
      else if 6 ≤ r ∧ r ≤ 17 ∧ c = 1 then CellVal.vint 1
      else CellVal.vnone,
    fmt := fun _ _ => "General", merges := [] }

/-- Witness for claim C7 on the spec's example sheet: block 1 starts at
the first label row, ends on a non-empty row, and row 18 (inside the
trimmed tail) is blank. -/
theorem claim_C7_witness :
    ((blockRanges blockSheetEx).getD 0 (0, 0)).1 = (startsOf blockSheetEx).getD 0 0
    ∧ rowNonempty blockSheetEx ((blockRanges blockSheetEx).getD 0 (0, 0)).2 = true
    ∧ rowNonempty blockSheetEx 18 = false :=
  ⟨(claim_C7_block_trimming blockSheetEx 0 (by decide)).1,
   (claim_C7_block_trimming blockSheetEx 0 (by decide)).2.2.2.1,
   (claim_C7_block_trimming blockSheetEx 0 (by decide)).2.2.2.2 18
     (by decide) (by decide)⟩

/-! ### Numeric display formatting (`format_numeric_cells`) -/

/-- Python `round` on a float: round half to even. -/
def pyRound (q : ℚ) : Int :=
  if q - Int.floor q < 1 / 2 then Int.floor q
  else if q - Int.floor q > 1 / 2 then Int.floor q + 1
  else if Int.floor q % 2 = 0 then Int.floor q else Int.floor q + 1

/-- `pos = "#\ ###\ ###\ ###\ ###\ ##0"` from the source. -/
def posFmt : String := "#\\ ###\\ ###\\ ###\\ ###\\ ##0"

/-- `neg = "-\ " + pos`. -/
def negFmt : String := "-\\ " ++ posFmt

/-- `thousands_format = f"{pos};{neg};0"`. -/
def thousandsFormat : String := posFmt ++ ";" ++ negFmt ++ ";0"

/-- The per-cell body of `format_numeric_cells`: skip excluded columns and
the placeholders `"-"`/`"X"`; round floats to integers; stamp the grouped
display format on numeric cells.  Returns the new `(value, number_format)`
pair. -/
def formatCell (skipCols : List Nat) (c : Nat) (v : CellVal) (f : String) :
    CellVal × String :=
  if c ∈ skipCols then (v, f)
  else if v = CellVal.vstr "-".toList ∨ v = CellVal.vstr "X".toList then (v, f)
  else
    match v with
    | CellVal.vint n => (CellVal.vint n, thousandsFormat)
    | CellVal.vfloat q => (CellVal.vint (pyRound q), thousandsFormat)
    | w => (w, f)

/-- `format_numeric_cells(ws, skip_cols)`: `ws.iter_rows()` visits exactly
the cells `1..max_row × 1..max_col`, and each cell is transformed
independently of all others, so the loop is the pointwise map of
`formatCell` over that rectangle. -/
def formatSheet (skipCols : List Nat) (S : Sheet) : Sheet :=
  { S with
    val := fun r c =>
      if 1 ≤ r ∧ r ≤ S.maxRow ∧ 1 ≤ c ∧ c ≤ S.maxCol then
        (formatCell skipCols c (S.val r c) (S.fmt r c)).1
      else S.val r c,
    fmt := fun r c =>
      if 1 ≤ r ∧ r ≤ S.maxRow ∧ 1 ≤ c ∧ c ≤ S.maxCol then
        (formatCell skipCols c (S.val r c) (S.fmt r c)).2
      else S.fmt r c }

theorem formatSheet_val (skipCols : List Nat) (S : Sheet) (r c : Nat) :
    (formatSheet skipCols S).val r c =
      if 1 ≤ r ∧ r ≤ S.maxRow ∧ 1 ≤ c ∧ c ≤ S.maxCol then
        (formatCell skipCols c (S.val r c) (S.fmt r c)).1
      else S.val r c := rfl

theorem formatSheet_fmt (skipCols : List Nat) (S : Sheet) (r c : Nat) :
    (formatSheet skipCols S).fmt r c =
      if 1 ≤ r ∧ r ≤ S.maxRow ∧ 1 ≤ c ∧ c ≤ S.maxCol then
        (formatCell skipCols c (S.val r c) (S.fmt r c)).2
      else S.fmt r c := rfl

theorem formatCell_idem (skipCols : List Nat) (c : Nat) (v : CellVal)
    (f : String) :
    formatCell skipCols c (formatCell skipCols c v f).1
      (formatCell skipCols c v f).2 = formatCell skipCols c v f := by
  by_cases hc : c ∈ skipCols
  · simp [formatCell, hc]
  · cases v with
    | vnone => simp [formatCell, hc]
    | vint n => simp [formatCell, hc]
    | vfloat q => simp [formatCell, hc]
    | vstr s =>
        by_cases hp : CellVal.vstr s = CellVal.vstr "-".toList
          ∨ CellVal.vstr s = CellVal.vstr "X".toList
        · simp [formatCell, hc, hp]
        · simp [formatCell, hc, hp]

/-- Claim C8: numeric formatting is idempotent.  For every sheet and every
excluded-column set, applying `format_numeric_cells` twice leaves every
stored value and every number format equal to the result of applying it
once: after the first pass every affected value is already an integer and
the same display format string is merely re-applied. -/
theorem claim_C8_format_idempotent (skipCols : List Nat) (S : Sheet)
    (r c : Nat) :
    (formatSheet skipCols (formatSheet skipCols S)).val r c
        = (formatSheet skipCols S).val r c
    ∧ (formatSheet skipCols (formatSheet skipCols S)).fmt r c
        = (formatSheet skipCols S).fmt r c := by
  have key := formatCell_idem skipCols c (S.val r c) (S.fmt r c)
  rw [formatSheet_val skipCols (formatSheet skipCols S) r c,
    formatSheet_fmt skipCols (formatSheet skipCols S) r c]
  by_cases h : 1 ≤ r ∧ r ≤ S.maxRow ∧ 1 ≤ c ∧ c ≤ S.maxCol
  · have h' : 1 ≤ r ∧ r ≤ (formatSheet skipCols S).maxRow
        ∧ 1 ≤ c ∧ c ≤ (formatSheet skipCols S).maxCol := h
    rw [if_pos h', if_pos h',
      formatSheet_val skipCols S r c, formatSheet_fmt skipCols S r c,
      if_pos h, if_pos h]
    exact ⟨congrArg Prod.fst key, congrArg Prod.snd key⟩
  · have h' : ¬(1 ≤ r ∧ r ≤ (formatSheet skipCols S).maxRow
        ∧ 1 ≤ c ∧ c ≤ (formatSheet skipCols S).maxCol) := h
    rw [if_neg h', if_neg h']
    exact ⟨rfl, rfl⟩

/-! ### The footer year rewrite: `re.sub(r"\(C\)opyright\s+\d{4}", ...)` -/

/-- The copyright marker literal of the source. -/
def copMarker : List Char := "(C)opyright".toList

/-- The as-of marker literal `"Stand:"` of the source. -/
def standMarker : List Char := "Stand:".toList

/-- The replacement text `f"(C)opyright {current_year}"`, with `y4` the
decimal digits of the current year. -/
def replText (y4 : List Char) : List Char := copMarker ++ ' ' :: y4

/-- Attempt to match `\(C\)opyright\s+\d{4}` at the head of `l`.  Since
whitespace and digits are disjoint character classes, the greedy `\s+`
takes the maximal whitespace run and `\d{4}` then needs exactly four
digits.  Returns `(matched text, remainder)`. -/
def takeMatch (l : List Char) : Option (List Char × List Char) :=
  if isPre copMarker l = true then
    if ((l.drop copMarker.length).takeWhile Char.isWhitespace) ≠ []
        ∧ (((l.drop copMarker.length).dropWhile Char.isWhitespace).take 4).length = 4
        ∧ (((l.drop copMarker.length).dropWhile Char.isWhitespace).take 4).all
            Char.isDigit = true then
      some (copMarker ++ ((l.drop copMarker.length).takeWhile Char.isWhitespace
          ++ ((l.drop copMarker.length).dropWhile Char.isWhitespace).take 4),
        ((l.drop copMarker.length).dropWhile Char.isWhitespace).drop 4)
    else none
  else none

theorem isPre_append (a b : List Char) : isPre a (a ++ b) = true := by
  induction a with
  | nil => rfl
  | cons x xs ih => simp [isPre, ih]

theorem isPre_decomp : ∀ (a l : List Char), isPre a l = true → l = a ++ l.drop a.length := by
  intro a
  induction a with
  | nil => intro l _; simp
  | cons x xs ih =>
      intro l h
      cases l with
      | nil => exact absurd h (by simp [isPre])
      | cons y ys =>
          unfold isPre at h
          rw [Bool.and_eq_true, beq_iff_eq] at h
          have := ih ys h.2
          simp only [List.length_cons, List.drop_succ_cons]
          rw [h.1]
          exact congrArg (y :: ·) this

theorem isPre_of_take_eq : ∀ (a l₁ l₂ : List Char),
    l₁.take a.length = l₂.take a.length → isPre a l₁ = isPre a l₂ := by
  intro a
  induction a with
  | nil => intro l₁ l₂ _; rfl
  | cons x xs ih =>
      intro l₁ l₂ h
      cases l₁ with
      | nil =>
          cases l₂ with
          | nil => rfl
          | cons y₂ t₂ => exact absurd h (by simp)
      | cons y₁ t₁ =>
          cases l₂ with
          | nil => exact absurd h (by simp)
          | cons y₂ t₂ =>
              simp only [List.length_cons, List.take_succ_cons, List.cons.injEq] at h
              unfold isPre
              rw [h.1, ih t₁ t₂ h.2]

theorem takeWhile_append_of_head (p : Char → Bool) (ch : Char) (t : List Char)
    (h : p ch = false) :
    ∀ a : List Char, (a ++ ch :: t).takeWhile p = a.takeWhile p := by
  intro a
  induction a with
  | nil => simp [List.takeWhile_cons, h]
  | cons x xs ih =>
      by_cases hx : p x = true
      · simp only [List.cons_append, List.takeWhile_cons_of_pos hx, ih]
      · have hx' : p x = false := by
          cases hb : p x
          · rfl
          · exact absurd hb hx
        simp [List.takeWhile_cons, hx']

theorem dropWhile_append_of_head (p : Char → Bool) (ch : Char) (t : List Char)
    (h : p ch = false) :
    ∀ a : List Char, (a ++ ch :: t).dropWhile p = a.dropWhile p ++ ch :: t := by
  intro a
  induction a with
  | nil => simp [List.dropWhile_cons, h]
  | cons x xs ih =>
      by_cases hx : p x = true
      · simp only [List.cons_append, List.dropWhile_cons_of_pos hx, ih]
      · have hx' : p x = false := by
          cases hb : p x
          · rfl
          · exact absurd hb hx
        simp [List.dropWhile_cons, hx']

theorem takeWhile_all_append (p : Char → Bool) (ws : List Char)
    (hall : ∀ x ∈ ws, p x = true) (ch : Char) (t : List Char)
    (hch : p ch = false) :
    (ws ++ ch :: t).takeWhile p = ws ∧ (ws ++ ch :: t).dropWhile p = ch :: t := by
  induction ws with
  | nil => simp [List.takeWhile_cons, List.dropWhile_cons, hch]
  | cons x xs ih =>
      have hx : p x = true := hall x (List.mem_cons_self x xs)
      have ih' := ih (fun y hy => hall y (List.mem_cons_of_mem x hy))
      simp only [List.cons_append, List.takeWhile_cons_of_pos hx,
        List.dropWhile_cons_of_pos hx, ih'.1, ih'.2, and_self]

theorem digit_not_ws (ch : Char) (h : ch.isDigit = true) :
    ch.isWhitespace = false := by
  unfold Char.isDigit at h
  rw [Bool.and_eq_true, decide_eq_true_eq, decide_eq_true_eq] at h
  unfold Char.isWhitespace
  have h1 : ch ≠ ' ' := fun he => by rw [he] at h; revert h; decide
  have h2 : ch ≠ '\t' := fun he => by rw [he] at h; revert h; decide
  have h3 : ch ≠ '\x0d' := fun he => by rw [he] at h; revert h; decide
  have h4 : ch ≠ '\n' := fun he => by rw [he] at h; revert h; decide
  simp [h1, h2, h3, h4]

theorem takeMatch_nil : takeMatch [] = none := by decide

theorem takeMatch_none_of_not_isPre (l : List Char)
    (h : isPre copMarker l = false) : takeMatch l = none := by
  unfold takeMatch
  rw [if_neg (by simp [h])]

theorem takeMatch_some_struct (l m rest : List Char)
    (h : takeMatch l = some (m, rest)) :
    m = copMarker ++ ((l.drop copMarker.length).takeWhile Char.isWhitespace
        ++ ((l.drop copMarker.length).dropWhile Char.isWhitespace).take 4)
    ∧ l = m ++ rest
    ∧ (l.drop copMarker.length).takeWhile Char.isWhitespace ≠ []
    ∧ (((l.drop copMarker.length).dropWhile Char.isWhitespace).take 4).length = 4
    ∧ (((l.drop copMarker.length).dropWhile Char.isWhitespace).take 4).all
        Char.isDigit = true := by
  unfold takeMatch at h
  split_ifs at h with h1 h2
  rw [Option.some.injEq, Prod.mk.injEq] at h
  refine ⟨h.1.symm, ?_, h2.1, h2.2.1, h2.2.2⟩
  rw [← h.1, ← h.2]
  have hdec := isPre_decomp copMarker l h1
  conv_lhs => rw [hdec]
  rw [List.append_assoc, List.append_assoc]
  congr 1
  conv_lhs => rw [← List.takeWhile_append_dropWhile Char.isWhitespace
    (l.drop copMarker.length)]
  congr 1
  rw [List.take_append_drop]

theorem takeMatch_rest_lt (l m rest : List Char)
    (h : takeMatch l = some (m, rest)) : rest.length < l.length := by
  obtain ⟨hm, hl, -, -, -⟩ := takeMatch_some_struct l m rest h
  rw [hl, List.length_append]
  have : 0 < m.length := by
    rw [hm]
    simp [copMarker]
  omega

/-- Fuelled evaluator for the substitution: scan left to right, replace
every match by `replText y4`, and continue after the matched span (as
`re.sub` does).  Each step consumes at least one character, so any fuel
of at least the list length computes the substitution. -/
def subYearGo (y4 : List Char) : Nat → List Char → List Char
  | 0, l => l
  | _ + 1, [] => []
  | fuel + 1, ch :: cs =>
      match takeMatch (ch :: cs) with
      | some (_, rest) => replText y4 ++ subYearGo y4 fuel rest
      | none => ch :: subYearGo y4 fuel cs

/-- `re.sub(r"\(C\)opyright\s+\d{4}", lambda m: f"(C)opyright {year}", l)`. -/
def subYear (y4 l : List Char) : List Char := subYearGo y4 l.length l

theorem subYearGo_fuel (y4 : List Char) :
    ∀ (f₁ : Nat), ∀ (f₂ : Nat) (l : List Char), l.length ≤ f₁ → l.length ≤ f₂ →
      subYearGo y4 f₁ l = subYearGo y4 f₂ l := by
  intro f₁
  induction f₁ with
  | zero =>
      intro f₂ l h1 _
      have : l = [] := List.length_eq_zero.mp (by omega)
      subst this
      cases f₂ <;> rfl
  | succ f ih =>
      intro f₂ l h1 h2
      cases l with
      | nil => cases f₂ <;> rfl
      | cons ch cs =>
          cases f₂ with
          | zero => simp at h2
          | succ f' =>
              rcases htm : takeMatch (ch :: cs) with - | ⟨m, rest⟩
              · simp only [subYearGo, htm]
                rw [ih f' cs (by simp at h1; omega) (by simp at h2; omega)]
              · have hlt := takeMatch_rest_lt _ _ _ htm
                simp only [List.length_cons] at hlt h1 h2
                simp only [subYearGo, htm]
                rw [ih f' rest (by omega) (by omega)]

theorem subYear_nil (y4 : List Char) : subYear y4 [] = [] := rfl

theorem subYear_cons_some (y4 : List Char) (ch : Char) (cs m rest : List Char)
    (htm : takeMatch (ch :: cs) = some (m, rest)) :
    subYear y4 (ch :: cs) = replText y4 ++ subYear y4 rest := by
  have hlt := takeMatch_rest_lt _ _ _ htm
  simp only [List.length_cons] at hlt
  unfold subYear
  simp only [List.length_cons, subYearGo, htm]
  rw [subYearGo_fuel y4 cs.length rest.length rest (by omega) (le_refl _)]

theorem subYear_cons_none (y4 : List Char) (ch : Char) (cs : List Char)
    (htm : takeMatch (ch :: cs) = none) :
    subYear y4 (ch :: cs) = ch :: subYear y4 cs := by
  unfold subYear
  simp only [List.length_cons, subYearGo, htm]

theorem subYear_match (y4 l m rest : List Char)
    (htm : takeMatch l = some (m, rest)) :
    subYear y4 l = replText y4 ++ subYear y4 rest := by
  cases l with
  | nil => rw [takeMatch_nil] at htm; cases htm
  | cons ch cs => exact subYear_cons_some y4 ch cs m rest htm

theorem subYear_of_allnone (y4 : List Char) :
    ∀ l : List Char, (∀ p, p < l.length + 1 → takeMatch (l.drop p) = none) →
      subYear y4 l = l := by
  intro l
  induction l with
  | nil => intro _; exact subYear_nil y4
  | cons ch cs ih =>
      intro h
      rw [subYear_cons_none y4 ch cs (by simpa using h 0 (by omega))]
      refine congrArg (ch :: ·) (ih ?_)
      intro p hp
      simpa using h (p + 1) (by simp only [List.length_cons]; omega)

theorem subYear_append_of_nomatch (y4 : List Char) :
    ∀ pre tail : List Char,
      (∀ p, p < pre.length → takeMatch ((pre ++ tail).drop p) = none) →
      subYear y4 (pre ++ tail) = pre ++ subYear y4 tail := by
  intro pre
  induction pre with
  | nil => intro tail _; simp
  | cons ch pres ih =>
      intro tail h
      have h0 := h 0 (by simp)
      rw [List.drop_zero, List.cons_append] at h0
      rw [List.cons_append, subYear_cons_none y4 ch (pres ++ tail) h0]
      rw [ih tail (fun p hp => by
        simpa using h (p + 1) (by simp only [List.length_cons]; omega))]
      rfl

theorem firstSplit : ∀ l : List Char,
    (∀ p, takeMatch (l.drop p) = none)
    ∨ ∃ pre m rest, l = pre ++ (m ++ rest)
        ∧ (∀ p, p < pre.length → takeMatch (l.drop p) = none)
        ∧ takeMatch (m ++ rest) = some (m, rest) := by
  intro l
  induction l with
  | nil =>
      left
      intro p
      rw [List.drop_nil]
      exact takeMatch_nil
  | cons ch cs ih =>
      rcases htm : takeMatch (ch :: cs) with - | ⟨m, rest⟩
      · rcases ih with hall | ⟨pre, m, rest, heq, hnone, hsm⟩
        · left
          intro p
          cases p with
          | zero => exact htm
          | succ p' => simpa using hall p'
        · right
          refine ⟨ch :: pre, m, rest, by rw [heq]; rfl, ?_, hsm⟩
          intro p hp
          cases p with
          | zero => exact htm
          | succ p' =>
              simp only [List.length_cons] at hp
              simpa using hnone p' (by omega)
      · right
        obtain ⟨-, heq, -, -, -⟩ := takeMatch_some_struct _ _ _ htm
        refine ⟨[], m, rest, by simpa using heq, ?_, by rw [← heq]; exact htm⟩
        intro p hp
        exact absurd hp (by simp)

theorem takeMatch_repl (y4 : List Char) (h4 : y4.length = 4)
    (hd : y4.all Char.isDigit = true) (X : List Char) :
    takeMatch (replText y4 ++ X) = some (replText y4, X) := by
  cases y4 with
  | nil => simp at h4
  | cons d0 tl =>
  have hd0 : d0.isDigit = true := by
    rw [List.all_cons, Bool.and_eq_true] at hd
    exact hd.1
  have hws0 : Char.isWhitespace d0 = false := digit_not_ws d0 hd0
  have heq : replText (d0 :: tl) ++ X = copMarker ++ (' ' :: d0 :: (tl ++ X)) := by
    simp [replText]
  rw [heq]
  unfold takeMatch
  rw [if_pos (isPre_append copMarker _), List.drop_left]
  rw [List.takeWhile_cons_of_pos (show Char.isWhitespace ' ' = true by decide)]
  rw [List.takeWhile_cons_of_neg (by simp [hws0])]
  rw [List.dropWhile_cons_of_pos (show Char.isWhitespace ' ' = true by decide)]
  rw [List.dropWhile_cons_of_neg (by simp [hws0])]
  have hlen4 : tl.length = 3 := by simpa using h4
  have hsplit : d0 :: (tl ++ X) = (d0 :: tl) ++ X := rfl
  have htake : (d0 :: (tl ++ X)).take 4 = d0 :: tl := by
    rw [hsplit, show (4 : Nat) = (d0 :: tl).length by simp [hlen4], List.take_left]
  have hdrop : (d0 :: (tl ++ X)).drop 4 = X := by
    rw [hsplit, show (4 : Nat) = (d0 :: tl).length by simp [hlen4], List.drop_left]
  rw [htake, hdrop]
  rw [if_pos ⟨by simp, by simp [hlen4], hd⟩]
  simp [replText]

theorem copMarker_no_border : ∀ k, k < copMarker.length → 0 < k →
    copMarker.drop k ≠ copMarker.take (copMarker.length - k) := by decide

theorem take_agree_of_take_marker {v₁ v₂ : List Char}
    (h1 : v₁.take copMarker.length = copMarker)
    (h2 : v₂.take copMarker.length = copMarker) (k : Nat)
    (hk : k ≤ copMarker.length) : v₁.take k = v₂.take k := by
  have e1 : v₁.take k = copMarker.take k := by
    rw [← h1, List.take_take, Nat.min_eq_left hk]
  have e2 : v₂.take k = copMarker.take k := by
    rw [← h2, List.take_take, Nat.min_eq_left hk]
  rw [e1, e2]

theorem copMarker_cons : copMarker = '(' :: "C)opyright".toList := rfl

theorem takeMatch_isNone_congr_core (x' v₁ v₂ : List Char) (hx : x' ≠ [])
    (h1 : v₁.take copMarker.length = copMarker)
    (h2 : v₂.take copMarker.length = copMarker) :
    (takeMatch (x' ++ v₁)).isNone = (takeMatch (x' ++ v₂)).isNone := by
  have htake11 : (x' ++ v₁).take copMarker.length
      = (x' ++ v₂).take copMarker.length := by
    rw [List.take_append_eq_append_take, List.take_append_eq_append_take]
    exact congrArg (x'.take copMarker.length ++ ·)
      (take_agree_of_take_marker h1 h2 _ (Nat.sub_le _ _))
  have hpreEq : isPre copMarker (x' ++ v₁) = isPre copMarker (x' ++ v₂) :=
    isPre_of_take_eq copMarker _ _ htake11
  cases hpre : isPre copMarker (x' ++ v₁) with
  | false =>
      rw [takeMatch_none_of_not_isPre _ hpre,
        takeMatch_none_of_not_isPre _ (by rw [← hpreEq]; exact hpre)]
  | true =>
      by_cases hxlt : x'.length < copMarker.length
      · exfalso
        have ht : (x' ++ v₁).take copMarker.length = copMarker := by
          have hdec := isPre_decomp copMarker (x' ++ v₁) hpre
          rw [hdec, List.take_left]
        rw [List.take_append_eq_append_take,
          List.take_all_of_le (le_of_lt hxlt),
          show v₁.take (copMarker.length - x'.length)
              = copMarker.take (copMarker.length - x'.length) from
            (fun k hk => by rw [← h1, List.take_take, Nat.min_eq_left hk] :
              ∀ k, k ≤ copMarker.length → v₁.take k = copMarker.take k)
            _ (Nat.sub_le _ _)] at ht
        have hdrop : copMarker.drop x'.length
            = copMarker.take (copMarker.length - x'.length) := by
          conv_lhs => rw [← ht]
          rw [List.drop_left]
        exact copMarker_no_border x'.length hxlt (List.length_pos.mpr hx) hdrop
      · push_neg at hxlt
        have hpre₂ : isPre copMarker (x' ++ v₂) = true := by
          rw [← hpreEq]; exact hpre
        have hda₁ : (x' ++ v₁).drop copMarker.length
            = x'.drop copMarker.length ++ v₁ := by
          rw [List.drop_append_eq_append_drop, Nat.sub_eq_zero_of_le hxlt,
            List.drop_zero]
        have hda₂ : (x' ++ v₂).drop copMarker.length
            = x'.drop copMarker.length ++ v₂ := by
          rw [List.drop_append_eq_append_drop, Nat.sub_eq_zero_of_le hxlt,
            List.drop_zero]
        have hv₁ : v₁ = '(' :: ("C)opyright".toList
            ++ v₁.drop copMarker.length) := by
          conv_lhs => rw [← List.take_append_drop copMarker.length v₁]
          rw [h1, copMarker_cons]
          rfl
        have hv₂ : v₂ = '(' :: ("C)opyright".toList
            ++ v₂.drop copMarker.length) := by
          conv_lhs => rw [← List.take_append_drop copMarker.length v₂]
          rw [h2, copMarker_cons]
          rfl
        have hwsParen : Char.isWhitespace '(' = false := by decide
        have htw₁ : ((x' ++ v₁).drop copMarker.length).takeWhile Char.isWhitespace
            = (x'.drop copMarker.length).takeWhile Char.isWhitespace := by
          rw [hda₁]
          conv_lhs => rw [hv₁]
          exact takeWhile_append_of_head Char.isWhitespace '(' _ hwsParen _
        have htw₂ : ((x' ++ v₂).drop copMarker.length).takeWhile Char.isWhitespace
            = (x'.drop copMarker.length).takeWhile Char.isWhitespace := by
          rw [hda₂]
          conv_lhs => rw [hv₂]
          exact takeWhile_append_of_head Char.isWhitespace '(' _ hwsParen _
        have hdw₁ : ((x' ++ v₁).drop copMarker.length).dropWhile Char.isWhitespace
            = (x'.drop copMarker.length).dropWhile Char.isWhitespace ++ v₁ := by
          rw [hda₁]
          conv_lhs => rw [hv₁]
          rw [dropWhile_append_of_head Char.isWhitespace '(' _ hwsParen _]
          rw [← hv₁]
        have hdw₂ : ((x' ++ v₂).drop copMarker.length).dropWhile Char.isWhitespace
            = (x'.drop copMarker.length).dropWhile Char.isWhitespace ++ v₂ := by
          rw [hda₂]
          conv_lhs => rw [hv₂]
          rw [dropWhile_append_of_head Char.isWhitespace '(' _ hwsParen _]
          rw [← hv₂]
        have hL11 : copMarker.length = 11 := rfl
        have ht4 : (((x' ++ v₁).drop copMarker.length).dropWhile
              Char.isWhitespace).take 4
            = (((x' ++ v₂).drop copMarker.length).dropWhile
              Char.isWhitespace).take 4 := by
          rw [hdw₁, hdw₂, List.take_append_eq_append_take,
            List.take_append_eq_append_take]
          exact congrArg
            ((((x'.drop copMarker.length).dropWhile Char.isWhitespace).take 4) ++ ·)
            (take_agree_of_take_marker h1 h2 _ (by omega))
        unfold takeMatch
        rw [if_pos hpre, if_pos hpre₂, htw₁, htw₂, ht4]
        by_cases hC : (x'.drop copMarker.length).takeWhile Char.isWhitespace ≠ []
            ∧ ((((x' ++ v₂).drop copMarker.length).dropWhile
                Char.isWhitespace).take 4).length = 4
            ∧ ((((x' ++ v₂).drop copMarker.length).dropWhile
                Char.isWhitespace).take 4).all Char.isDigit = true
        · rw [if_pos hC, if_pos hC]
          rfl
        · rw [if_neg hC, if_neg hC]

theorem takeMatch_isNone_congr (x v₁ v₂ : List Char)
    (h1 : v₁.take copMarker.length = copMarker)
    (h2 : v₂.take copMarker.length = copMarker)
    (p : Nat) (hp : p < x.length) :
    (takeMatch ((x ++ v₁).drop p)).isNone
      = (takeMatch ((x ++ v₂).drop p)).isNone := by
  have hd₁ : (x ++ v₁).drop p = x.drop p ++ v₁ := by
    rw [List.drop_append_eq_append_drop, Nat.sub_eq_zero_of_le (le_of_lt hp),
      List.drop_zero]
  have hd₂ : (x ++ v₂).drop p = x.drop p ++ v₂ := by
    rw [List.drop_append_eq_append_drop, Nat.sub_eq_zero_of_le (le_of_lt hp),
      List.drop_zero]
  rw [hd₁, hd₂]
  refine takeMatch_isNone_congr_core (x.drop p) v₁ v₂ ?_ h1 h2
  rw [← List.length_pos, List.length_drop]
  omega

theorem takeMatch_self_take_marker (m rest : List Char)
    (h : takeMatch (m ++ rest) = some (m, rest)) :
    (m ++ rest).take copMarker.length = copMarker := by
  obtain ⟨hm, -, -, -, -⟩ := takeMatch_some_struct (m ++ rest) m rest h
  rw [hm, List.append_assoc, List.take_left]

theorem replText_append_take_marker (y4 X : List Char) :
    (replText y4 ++ X).take copMarker.length = copMarker := by
  show ((copMarker ++ ' ' :: y4) ++ X).take copMarker.length = copMarker
  rw [List.append_assoc, List.take_left]

theorem subYear_idem (y4 : List Char) (h4 : y4.length = 4)
    (hd : y4.all Char.isDigit = true) :
    ∀ l : List Char, subYear y4 (subYear y4 l) = subYear y4 l := by
  have main : ∀ n (l : List Char), l.length ≤ n →
      subYear y4 (subYear y4 l) = subYear y4 l := by
    intro n
    induction n with
    | zero =>
        intro l hl
        have : l = [] := List.length_eq_zero.mp (by omega)
        subst this
        rw [subYear_nil, subYear_nil]
    | succ n ih =>
        intro l hl
        rcases firstSplit l with hall | ⟨pre, m, rest, heq, hnone, hsm⟩
        · rw [subYear_of_allnone y4 l (fun p _ => hall p),
            subYear_of_allnone y4 l (fun p _ => hall p)]
        · have hstep₁ : subYear y4 l = pre ++ subYear y4 (m ++ rest) := by
            conv_lhs => rw [heq]
            exact subYear_append_of_nomatch y4 pre (m ++ rest)
              (fun p hp => by rw [← heq]; exact hnone p hp)
          have hsub_m : subYear y4 (m ++ rest) = replText y4 ++ subYear y4 rest :=
            subYear_match y4 (m ++ rest) m rest hsm
          have hrlen : rest.length < l.length := by
            have h1 := takeMatch_rest_lt (m ++ rest) m rest hsm
            rw [heq]
            simp only [List.length_append] at h1 ⊢
            omega
          have hnone₂ : ∀ p, p < pre.length →
              takeMatch ((pre ++ (replText y4 ++ subYear y4 rest)).drop p)
                = none := by
            intro p hp
            have hcong := takeMatch_isNone_congr pre (m ++ rest)
              (replText y4 ++ subYear y4 rest)
              (takeMatch_self_take_marker m rest hsm)
              (replText_append_take_marker y4 _) p hp
            have h0 : takeMatch ((pre ++ (m ++ rest)).drop p) = none := by
              rw [← heq]
              exact hnone p hp
            rw [h0] at hcong
            cases hres : takeMatch ((pre ++ (replText y4 ++ subYear y4 rest)).drop p) with
            | none => rfl
            | some x => rw [hres] at hcong; simp at hcong
          have hstep₂ : subYear y4 (pre ++ (replText y4 ++ subYear y4 rest))
              = pre ++ subYear y4 (replText y4 ++ subYear y4 rest) :=
            subYear_append_of_nomatch y4 pre _ hnone₂
          have hR : subYear y4 (replText y4 ++ subYear y4 rest)
              = replText y4 ++ subYear y4 (subYear y4 rest) :=
            subYear_match y4 _ _ _ (takeMatch_repl y4 h4 hd (subYear y4 rest))
          rw [hstep₁, hsub_m, hstep₂, hR, ih rest (by omega)]
  exact fun l => main l.length l (le_refl _)

theorem containsSub_iff (pat l : List Char) :
    containsSub pat l = true ↔ ∃ p, p ≤ l.length ∧ isPre pat (l.drop p) = true := by
  unfold containsSub
  rw [List.any_eq_true]
  constructor
  · rintro ⟨p, hp, h⟩
    exact ⟨p, by simp only [List.mem_range] at hp; omega, h⟩
  · rintro ⟨p, hp, h⟩
    exact ⟨p, by simp only [List.mem_range]; omega, h⟩

theorem subYear_contains_marker (y4 t : List Char)
    (h : containsSub copMarker t = true) :
    containsSub copMarker (subYear y4 t) = true := by
  rcases firstSplit t with hall | ⟨pre, m, rest, heq, hnone, hsm⟩
  · rw [subYear_of_allnone y4 t (fun p _ => hall p)]
    exact h
  · have hstep : subYear y4 t = pre ++ (replText y4 ++ subYear y4 rest) := by
      conv_lhs => rw [heq]
      rw [subYear_append_of_nomatch y4 pre (m ++ rest)
        (fun p hp => by rw [← heq]; exact hnone p hp)]
      rw [subYear_match y4 (m ++ rest) m rest hsm]
    rw [hstep, containsSub_iff]
    refine ⟨pre.length, by rw [List.length_append]; omega, ?_⟩
    rw [List.drop_left]
    show isPre copMarker ((copMarker ++ ' ' :: y4) ++ subYear y4 rest) = true
    rw [List.append_assoc]
    exact isPre_append _ _

theorem takeMatch_marker_ws_digits (ws d4 suf : List Char)
    (hws1 : ws ≠ []) (hws2 : ws.all Char.isWhitespace = true)
    (hd41 : d4.length = 4) (hd42 : d4.all Char.isDigit = true) :
    takeMatch (copMarker ++ (ws ++ (d4 ++ suf)))
      = some (copMarker ++ (ws ++ d4), suf) := by
  cases d4 with
  | nil => simp at hd41
  | cons d0 dt =>
  have hd0 : d0.isDigit = true := by
    rw [List.all_cons, Bool.and_eq_true] at hd42
    exact hd42.1
  have hws0 : Char.isWhitespace d0 = false := digit_not_ws d0 hd0
  have hallws : ∀ x ∈ ws, Char.isWhitespace x = true :=
    fun x hx => List.all_eq_true.mp hws2 x hx
  unfold takeMatch
  rw [if_pos (isPre_append copMarker _), List.drop_left]
  have hsplit : (d0 :: dt) ++ suf = d0 :: (dt ++ suf) := rfl
  rw [hsplit]
  obtain ⟨htw, hdw⟩ :=
    takeWhile_all_append Char.isWhitespace ws hallws d0 (dt ++ suf) hws0
  rw [htw, hdw]
  have hlen3 : dt.length = 3 := by simpa using hd41
  have htake : (d0 :: (dt ++ suf)).take 4 = d0 :: dt := by
    rw [← hsplit, show (4 : Nat) = (d0 :: dt).length by simp [hlen3],
      List.take_left]
  have hdrop4 : (d0 :: (dt ++ suf)).drop 4 = suf := by
    rw [← hsplit, show (4 : Nat) = (d0 :: dt).length by simp [hlen3],
      List.drop_left]
  rw [htake, hdrop4]
  rw [if_pos ⟨hws1, by simp [hlen3], hd42⟩]

/-- Counterexample to claim C5 as stated: the source's `re.sub` replaces
the whole match `marker + whitespace + 4 digits` by
`"(C)opyright " + year`, so a two-space whitespace run is collapsed to a
single space instead of being preserved verbatim. -/
theorem claim_C5_counterexample :
    subYear "2025".toList "(C)opyright  2023".toList
        ≠ "(C)opyright  2025".toList
    ∧ subYear "2025".toList "(C)opyright  2023".toList
        = "(C)opyright 2025".toList := by
  constructor
  · decide
  · decide

/-- Claim C5 (amended): for an anchor text of the form
`prefix + marker + whitespace + 4 digits + suffix`, where the full
marker-plus-year pattern matches at no position inside the prefix and at
no position of the suffix, the rewrite yields
`prefix + marker + single space + current year + suffix`: prefix and
suffix are preserved verbatim, but the original whitespace run is
collapsed to one space (not preserved, as the counterexample forces). -/
theorem claim_C5_year_rewrite_amended (y4 pre ws d4 suf : List Char)
    (hws1 : ws ≠ []) (hws2 : ws.all Char.isWhitespace = true)
    (hd41 : d4.length = 4) (hd42 : d4.all Char.isDigit = true)
    (hpre : ∀ p, p < pre.length →
      takeMatch ((pre ++ (copMarker ++ (ws ++ (d4 ++ suf)))).drop p) = none)
    (hsuf : ∀ p, p < suf.length + 1 → takeMatch (suf.drop p) = none) :
    subYear y4 (pre ++ (copMarker ++ (ws ++ (d4 ++ suf))))
      = pre ++ (copMarker ++ (' ' :: (y4 ++ suf))) := by
  rw [subYear_append_of_nomatch y4 pre _ hpre]
  rw [subYear_match y4 _ _ _ (takeMatch_marker_ws_digits ws d4 suf hws1 hws2 hd41 hd42)]
  rw [subYear_of_allnone y4 suf hsuf]
  show pre ++ ((copMarker ++ ' ' :: y4) ++ suf) = _
  simp [List.append_assoc]

/-- Witness for claim C5 (amended) at a concrete anchor text with a
two-space whitespace run. -/
theorem claim_C5_witness :
    subYear "2025".toList
        ("NB ".toList ++ (copMarker ++ ("  ".toList
          ++ ("2023".toList ++ " Bayern".toList))))
      = "NB ".toList ++ (copMarker ++ (' ' :: ("2025".toList ++ " Bayern".toList))) :=
  claim_C5_year_rewrite_amended "2025".toList "NB ".toList "  ".toList
    "2023".toList " Bayern".toList (by decide) (by decide) (by decide)
    (by decide) (by decide) (by decide)

/-! ### The footer updater `update_footer_with_stand_and_copyright` -/

/-- Extract the string payload of a cell known to hold text. -/
def strOf (v : CellVal) : List Char :=
  match v with
  | CellVal.vstr s => s
  | _ => []

/-- `isinstance(v, str) and "(C)opyright" in v`. -/
def crPredB (v : CellVal) : Bool :=
  match v with
  | CellVal.vstr s => containsSub copMarker s
  | _ => false

/-- `isinstance(v, str) and "Stand:" in v`. -/
def standPredB (v : CellVal) : Bool :=
  match v with
  | CellVal.vstr s => containsSub standMarker s
  | _ => false

/-- `isinstance(v, str) and v.strip().startswith("Stand:")`. -/
def standStartB (v : CellVal) : Bool :=
  match v with
  | CellVal.vstr s => isPre standMarker (pyStrip s)
  | _ => false

/-- `for r in range(max_row, 0, -1)`: bottom-up scan of column 1 for the
copyright marker. -/
def findRowDown (S : Sheet) : Nat → Option Nat
  | 0 => none
  | r + 1 =>
      if crPredB (S.val (r + 1) 1) = true then some (r + 1) else findRowDown S r

/-- The anchor (copyright) row, scanning from `max_row` down to 1. -/
def findCopyrightRow (S : Sheet) : Option Nat := findRowDown S S.maxRow

/-- `for c in range(1, max_col + 1)` given as start column and fuel:
first column of row `r0` whose text contains the as-of marker. -/
def findColFrom (S : Sheet) (r0 : Nat) : Nat → Nat → Option Nat
  | _, 0 => none
  | c, fuel + 1 =>
      if standPredB (S.val r0 c) = true then some c
      else findColFrom S r0 (c + 1) fuel

/-- The stamp column of the anchor row. -/
def findStandCol (S : Sheet) (r0 : Nat) : Option Nat := findColFrom S r0 1 S.maxCol

/-- Blank every cell outside the anchor row whose stripped text starts
with `"Stand:"`.  The loop writes `""` into each such cell; each cell's
test reads only that cell, so the loop is this pointwise map over
`1..max_row × 1..max_col`. -/
def blankOtherStands (S : Sheet) (r0 : Nat) : Sheet :=
  { S with val := fun r c =>
      if 1 ≤ r ∧ r ≤ S.maxRow ∧ 1 ≤ c ∧ c ≤ S.maxCol ∧ r ≠ r0
          ∧ standStartB (S.val r c) = true then CellVal.vstr []
      else S.val r c }

/-- Python falsiness of `stand_text`: `None` or the empty string. -/
def isFalsyText : Option (List Char) → Bool
  | none => true
  | some [] => true
  | some (_ :: _) => false

/-- The anchor text after the year rewrite (the value written back into
the anchor cell in column 1). -/
def anchorText (y4 : List Char) (S : Sheet) (r0 : Nat) : List Char :=
  subYear y4 (strOf (S.val r0 1))

/-- The stamp column chosen by the update: the first marker column of the
anchor row after the year rewrite, with fallback `max_col`. -/
def standColOf (y4 : List Char) (S : Sheet) (r0 : Nat) : Nat :=
  (findStandCol (setVal S r0 1 (CellVal.vstr (anchorText y4 S r0))) r0).getD S.maxCol

/-- `update_footer_with_stand_and_copyright(ws, stand_text)` restricted to
the modelled state (cell values and number formats; font/border/fill/
alignment cloning has no effect on any value).  Steps, in source order:
find the anchor row bottom-up and rewrite its year in place; return if no
anchor or falsy `stand_text`; find the stamp column; blank stale stamps
outside the anchor row; write `stand_text` into the stamp cell, copying
the anchor cell's number format. -/
def footerUpdate (y4 : List Char) (standText : Option (List Char)) (S : Sheet) :
    Sheet :=
  match findCopyrightRow S with
  | none => S
  | some r0 =>
      let S1 := setVal S r0 1 (CellVal.vstr (anchorText y4 S r0))
      if isFalsyText standText = true then S1
      else
        let standCol := standColOf y4 S r0
        let S2 := blankOtherStands S1 r0
        let S3 := setVal S2 r0 standCol (CellVal.vstr (standText.getD []))
        setFmt S3 r0 standCol (S2.fmt r0 1)

theorem setVal_maxRow (S : Sheet) (r c : Nat) (v : CellVal) :
    (setVal S r c v).maxRow = S.maxRow := rfl

theorem setVal_maxCol (S : Sheet) (r c : Nat) (v : CellVal) :
    (setVal S r c v).maxCol = S.maxCol := rfl

theorem setFmt_val (S : Sheet) (r c : Nat) (f : String) :
    (setFmt S r c f).val = S.val := rfl

theorem findRowDown_some (S : Sheet) :
    ∀ n r0, findRowDown S n = some r0 →
      1 ≤ r0 ∧ r0 ≤ n ∧ crPredB (S.val r0 1) = true
        ∧ ∀ r, r0 < r → r ≤ n → crPredB (S.val r 1) = false := by
  intro n
  induction n with
  | zero => intro r0 h; cases h
  | succ m ih =>
      intro r0 h
      unfold findRowDown at h
      split_ifs at h with hp
      · rw [Option.some.injEq] at h
        subst h
        exact ⟨by omega, le_refl _, hp, fun r hr1 hr2 => absurd hr1 (by omega)⟩
      · obtain ⟨ha, hb, hc, hd⟩ := ih r0 h
        have hp' : crPredB (S.val (m + 1) 1) = false := by
          cases hb' : crPredB (S.val (m + 1) 1)
          · rfl
          · exact absurd hb' hp
        refine ⟨ha, by omega, hc, fun r hr1 hr2 => ?_⟩
        by_cases hr : r = m + 1
        · rw [hr]; exact hp'
        · exact hd r hr1 (by omega)

theorem findRowDown_intro (S : Sheet) :
    ∀ n r0, r0 ≤ n → 1 ≤ r0 → crPredB (S.val r0 1) = true →
      (∀ r, r0 < r → r ≤ n → crPredB (S.val r 1) = false) →
      findRowDown S n = some r0 := by
  intro n
  induction n with
  | zero => intro r0 h1 h2 _ _; omega
  | succ m ih =>
      intro r0 h1 h2 h3 h4
      unfold findRowDown
      by_cases hm : r0 = m + 1
      · subst hm
        rw [if_pos h3]
      · have hr0 : r0 ≤ m := by omega
        have hfalse : crPredB (S.val (m + 1) 1) = false :=
          h4 (m + 1) (by omega) (le_refl _)
        rw [if_neg (by simp [hfalse])]
        exact ih r0 hr0 h2 h3 (fun r hr1 hr2 => h4 r hr1 (by omega))

theorem findColFrom_some (S : Sheet) (r0 : Nat) :
    ∀ fuel c c', findColFrom S r0 c fuel = some c' →
      c ≤ c' ∧ c' < c + fuel ∧ standPredB (S.val r0 c') = true
        ∧ ∀ c'', c ≤ c'' → c'' < c' → standPredB (S.val r0 c'') = false := by
  intro fuel
  induction fuel with
  | zero => intro c c' h; cases h
  | succ f ih =>
      intro c c' h
      unfold findColFrom at h
      split_ifs at h with hp
      · rw [Option.some.injEq] at h
        subst h
        exact ⟨le_refl _, by omega, hp, fun c'' h1 h2 => absurd h1 (by omega)⟩
      · obtain ⟨ha, hb, hc, hd⟩ := ih (c + 1) c' h
        have hp' : standPredB (S.val r0 c) = false := by
          cases hb' : standPredB (S.val r0 c)
          · rfl
          · exact absurd hb' hp
        refine ⟨by omega, by omega, hc, fun c'' h1 h2 => ?_⟩
        by_cases hcc : c'' = c
        · rw [hcc]; exact hp'
        · exact hd c'' (by omega) h2

theorem findColFrom_none (S : Sheet) (r0 : Nat) :
    ∀ fuel c, findColFrom S r0 c fuel = none →
      ∀ c'', c ≤ c'' → c'' < c + fuel → standPredB (S.val r0 c'') = false := by
  intro fuel
  induction fuel with
  | zero => intro c _ c'' h1 h2; omega
  | succ f ih =>
      intro c h c'' h1 h2
      unfold findColFrom at h
      split_ifs at h with hp
      · have hp' : standPredB (S.val r0 c) = false := by
          cases hb' : standPredB (S.val r0 c)
          · rfl
          · exact absurd hb' hp
        by_cases hcc : c'' = c
        · rw [hcc]; exact hp'
        · exact ih (c + 1) h c'' (by omega) (by omega)

theorem findColFrom_intro (S : Sheet) (r0 : Nat) :
    ∀ fuel c c', c ≤ c' → c' < c + fuel →
      standPredB (S.val r0 c') = true →
      (∀ c'', c ≤ c'' → c'' < c' → standPredB (S.val r0 c'') = false) →
      findColFrom S r0 c fuel = some c' := by
  intro fuel
  induction fuel with
  | zero => intro c c' h1 h2 _ _; omega
  | succ f ih =>
      intro c c' h1 h2 h3 h4
      unfold findColFrom
      by_cases hm : c' = c
      · subst hm
        rw [if_pos h3]
      · have hfalse : standPredB (S.val r0 c) = false :=
          h4 c (le_refl _) (by omega)
        rw [if_neg (by simp [hfalse])]
        exact ih (c + 1) c' (by omega) (by omega) h3
          (fun c'' hc1 hc2 => h4 c'' (by omega) hc2)

theorem findColFrom_none_intro (S : Sheet) (r0 : Nat) :
    ∀ fuel c, (∀ c'', c ≤ c'' → c'' < c + fuel →
        standPredB (S.val r0 c'') = false) →
      findColFrom S r0 c fuel = none := by
  intro fuel
  induction fuel with
  | zero => intro c _; rfl
  | succ f ih =>
      intro c h
      unfold findColFrom
      rw [if_neg (by simp [h c (le_refl _) (by omega)])]
      exact ih (c + 1) (fun c'' h1 h2 => h c'' (by omega) (by omega))

/-- A footer-less sheet: no cell contains the copyright marker. -/
def noMarkerSheetEx : Sheet :=
  { maxRow := 2, maxCol := 2,
    val := fun r c =>
      if 1 ≤ r ∧ r ≤ 2 ∧ 1 ≤ c ∧ c ≤ 2 then CellVal.vstr "Fussnote".toList
      else CellVal.vnone,
    fmt := fun _ _ => "General", merges := [] }

/-- Counterexample to claim C4 as stated: on a sheet with no copyright
marker the update appends nothing and synthesizes nothing — the two rows
below `max_row`, where the claim says a blank separator and a synthesized
copyright line appear, stay empty. -/
theorem claim_C4_counterexample :
    (footerUpdate "2025".toList (some "Stand: 01.01.2025".toList)
        noMarkerSheetEx).val (noMarkerSheetEx.maxRow + 1) 1 = CellVal.vnone
    ∧ (footerUpdate "2025".toList (some "Stand: 01.01.2025".toList)
        noMarkerSheetEx).val (noMarkerSheetEx.maxRow + 2) 1 = CellVal.vnone := by
  constructor
  · decide
  · decide

/-- Claim C4 (amended): when the bottom-up scan finds no column-1 cell
containing the copyright marker, the update returns with the sheet
unchanged — no rows are appended and no cell value is written. -/
theorem claim_C4_no_append_amended (y4 : List Char)
    (standText : Option (List Char)) (S : Sheet)
    (h : findCopyrightRow S = none) (r c : Nat) :
    (footerUpdate y4 standText S).val r c = S.val r c := by
  unfold footerUpdate
  rw [h]

/-- Witness for claim C4 (amended) on the concrete marker-less sheet. -/
theorem claim_C4_witness :
    findCopyrightRow noMarkerSheetEx = none
    ∧ (footerUpdate "2025".toList (some "Stand: X".toList)
        noMarkerSheetEx).val 1 1 = noMarkerSheetEx.val 1 1 :=
  ⟨by decide,
   claim_C4_no_append_amended "2025".toList (some "Stand: X".toList)
     noMarkerSheetEx (by decide) 1 1⟩

theorem footerUpdate_val_char (y4 st : List Char) (S : Sheet) (r0 : Nat)
    (hf : findCopyrightRow S = some r0) (hst : st ≠ []) (r c : Nat) :
    (footerUpdate y4 (some st) S).val r c =
      if r = r0 ∧ c = standColOf y4 S r0 then CellVal.vstr st
      else if r = r0 ∧ c = 1 then CellVal.vstr (anchorText y4 S r0)
      else if 1 ≤ r ∧ r ≤ S.maxRow ∧ 1 ≤ c ∧ c ≤ S.maxCol ∧ r ≠ r0
          ∧ standStartB (S.val r c) = true then CellVal.vstr []
      else S.val r c := by
  have hfal : isFalsyText (some st) = false := by
    cases st with
    | nil => exact absurd rfl hst
    | cons a as => rfl
  simp only [footerUpdate, hf]
  rw [if_neg (by rw [hfal]; exact Bool.false_ne_true)]
  rw [setFmt_val, setVal_val]
  simp only [Option.getD_some]
  by_cases h1 : r = r0 ∧ c = standColOf y4 S r0
  · rw [if_pos h1, if_pos h1]
  · rw [if_neg h1, if_neg h1]
    show (blankOtherStands (setVal S r0 1 (CellVal.vstr (anchorText y4 S r0)))
        r0).val r c = _
    unfold blankOtherStands
    simp only [setVal_maxRow, setVal_maxCol]
    by_cases h2 : r = r0
    · rw [if_neg (fun hco => hco.2.2.2.2.1 h2)]
      rw [setVal_val]
      by_cases h3 : c = 1
      · rw [if_pos ⟨h2, h3⟩, if_pos ⟨h2, h3⟩]
      · rw [if_neg (fun hh => h3 hh.2), if_neg (fun hh => h3 hh.2)]
        rw [if_neg (fun hco => hco.2.2.2.2.1 h2)]
    · have hS1 : (setVal S r0 1 (CellVal.vstr (anchorText y4 S r0))).val r c
          = S.val r c := by
        rw [setVal_val, if_neg (fun hh => h2 hh.1)]
      rw [hS1]
      rw [if_neg (show ¬(r = r0 ∧ c = 1) from fun hh => h2 hh.1)]

theorem footerUpdate_maxRow (y4 : List Char) (standText : Option (List Char))
    (S : Sheet) : (footerUpdate y4 standText S).maxRow = S.maxRow := by
  unfold footerUpdate
  cases findCopyrightRow S with
  | none => rfl
  | some r0 =>
      dsimp only
      by_cases h : isFalsyText standText = true
      · rw [if_pos h]; rfl
      · rw [if_neg h]; rfl

theorem footerUpdate_maxCol (y4 : List Char) (standText : Option (List Char))
    (S : Sheet) : (footerUpdate y4 standText S).maxCol = S.maxCol := by
  unfold footerUpdate
  cases findCopyrightRow S with
  | none => rfl
  | some r0 =>
      dsimp only
      by_cases h : isFalsyText standText = true
      · rw [if_pos h]; rfl
      · rw [if_neg h]; rfl

theorem crPredB_strOf (v : CellVal) (h : crPredB v = true) :
    containsSub copMarker (strOf v) = true := by
  cases v with
  | vstr s => exact h
  | vnone => exact absurd h (by decide)
  | vint n => exact absurd h (by simp [crPredB])
  | vfloat q => exact absurd h (by simp [crPredB])

theorem crPredB_nil : crPredB (CellVal.vstr []) = false := by decide

theorem standStartB_nil : standStartB (CellVal.vstr []) = false := by decide

theorem anchorText_marker (y4 : List Char) (S : Sheet) (r0 : Nat)
    (h : crPredB (S.val r0 1) = true) :
    containsSub copMarker (anchorText y4 S r0) = true :=
  subYear_contains_marker y4 _ (crPredB_strOf _ h)

theorem findCopyrightRow_update (y4 st : List Char) (S : Sheet) (r0 : Nat)
    (hf : findCopyrightRow S = some r0) (hst : st ≠ [])
    (hcol' : standColOf y4 S r0 ≠ 1) :
    findCopyrightRow (footerUpdate y4 (some st) S) = some r0 := by
  obtain ⟨hr01, hr0max, hcr, habove⟩ :=
    findRowDown_some S S.maxRow r0 hf
  have hchar := footerUpdate_val_char y4 st S r0 hf hst
  unfold findCopyrightRow
  rw [footerUpdate_maxRow]
  apply findRowDown_intro _ S.maxRow r0 hr0max hr01
  · rw [hchar r0 1, if_neg (fun hh => hcol' hh.2.symm), if_pos ⟨rfl, rfl⟩]
    exact anchorText_marker y4 S r0 hcr
  · intro r' hr1 hr2
    rw [hchar r' 1]
    have hne : ¬(r' = r0) := by omega
    rw [if_neg (fun hh => hne hh.1), if_neg (fun hh => hne hh.1)]
    split_ifs with hb
    · exact crPredB_nil
    · exact habove r' hr1 hr2

theorem standColOf_update (y4 st : List Char) (S : Sheet) (r0 : Nat)
    (h4 : y4.length = 4) (hdg : y4.all Char.isDigit = true)
    (hf : findCopyrightRow S = some r0) (hst : st ≠ [])
    (hcol' : standColOf y4 S r0 ≠ 1)
    (hstmark : containsSub standMarker st = true) :
    standColOf y4 (footerUpdate y4 (some st) S) r0 = standColOf y4 S r0 := by
  have hchar := footerUpdate_val_char y4 st S r0 hf hst
  have ha : (footerUpdate y4 (some st) S).val r0 1
      = CellVal.vstr (anchorText y4 S r0) := by
    rw [hchar r0 1, if_neg (fun hh => hcol' hh.2.symm), if_pos ⟨rfl, rfl⟩]
  have hanch' : anchorText y4 (footerUpdate y4 (some st) S) r0
      = anchorText y4 S r0 := by
    unfold anchorText
    rw [ha]
    exact subYear_idem y4 h4 hdg _
  have lhs_eq : standColOf y4 (footerUpdate y4 (some st) S) r0
      = (findColFrom (setVal (footerUpdate y4 (some st) S) r0 1
          (CellVal.vstr (anchorText y4 (footerUpdate y4 (some st) S) r0))) r0
          1 S.maxCol).getD S.maxCol := by
    unfold standColOf findStandCol
    rw [setVal_maxCol, footerUpdate_maxCol]
  have rhs_eq : standColOf y4 S r0
      = (findColFrom (setVal S r0 1 (CellVal.vstr (anchorText y4 S r0))) r0
          1 S.maxCol).getD S.maxCol := by
    unfold standColOf findStandCol
    rw [setVal_maxCol]
  have hTpred : ∀ cc, cc ≠ standColOf y4 S r0 →
      standPredB ((setVal (footerUpdate y4 (some st) S) r0 1
          (CellVal.vstr (anchorText y4 S r0))).val r0 cc)
        = standPredB ((setVal S r0 1
          (CellVal.vstr (anchorText y4 S r0))).val r0 cc) := by
    intro cc hcc
    rw [setVal_val, setVal_val]
    by_cases h1c : cc = 1
    · rw [if_pos ⟨rfl, h1c⟩, if_pos ⟨rfl, h1c⟩]
    · rw [if_neg (fun hh => h1c hh.2), if_neg (fun hh => h1c hh.2)]
      rw [hchar r0 cc]
      rw [if_neg (fun hh => hcc hh.2), if_neg (fun hh => h1c hh.2)]
      rw [if_neg (show ¬(1 ≤ r0 ∧ r0 ≤ S.maxRow ∧ 1 ≤ cc ∧ cc ≤ S.maxCol
          ∧ r0 ≠ r0 ∧ standStartB (S.val r0 cc) = true) from
        fun hco => hco.2.2.2.2.1 rfl)]
  have hTsc : standPredB ((setVal (footerUpdate y4 (some st) S) r0 1
      (CellVal.vstr (anchorText y4 S r0))).val r0 (standColOf y4 S r0))
        = true := by
    rw [setVal_val, if_neg (fun hh => hcol' hh.2)]
    rw [hchar r0 (standColOf y4 S r0), if_pos ⟨rfl, rfl⟩]
    exact hstmark
  rw [lhs_eq, hanch', rhs_eq]
  rcases hrun1 : findColFrom (setVal S r0 1
      (CellVal.vstr (anchorText y4 S r0))) r0 1 S.maxCol with - | c'
  · have hnone := findColFrom_none _ r0 S.maxCol 1 hrun1
    have hscval : standColOf y4 S r0 = S.maxCol := by
      rw [rhs_eq, hrun1]
      rfl
    by_cases hmc : S.maxCol = 0
    · rw [hmc]
      rfl
    · rw [findColFrom_intro _ r0 S.maxCol 1 S.maxCol (by omega) (by omega)
        (by rw [← hscval]; exact hTsc) ?below]
      · rfl
      case below =>
        intro cc hc1 hc2
        rw [hTpred cc (by omega)]
        exact hnone cc hc1 (by omega)
  · obtain ⟨hc1, hc2, hcp, hbelow⟩ := findColFrom_some _ r0 S.maxCol 1 c' hrun1
    have hscval : standColOf y4 S r0 = c' := by
      rw [rhs_eq, hrun1]
      rfl
    rw [findColFrom_intro _ r0 S.maxCol 1 c' hc1 hc2
      (by rw [← hscval]; exact hTsc) ?below2]
    case below2 =>
      intro cc hcc1 hcc2
      rw [hTpred cc (by omega)]
      exact hbelow cc hcc1 hcc2

theorem footerUpdate_falsy_eq (y4 : List Char) (standText : Option (List Char))
    (S : Sheet) (r0 : Nat) (hf : findCopyrightRow S = some r0)
    (hfal : isFalsyText standText = true) :
    footerUpdate y4 standText S
      = setVal S r0 1 (CellVal.vstr (anchorText y4 S r0)) := by
  unfold footerUpdate
  rw [hf]
  dsimp only
  rw [if_pos hfal]

/-- Claim C2 (amended): the footer update is idempotent on cell values
provided the current-year string has exactly four digits, the stamp
column chosen by the first run is not column 1 (otherwise the stamp
overwrites the copyright anchor, as the counterexample shows), and the
as-of text contains the `"Stand:"` marker.  With no anchor row or a falsy
as-of text the update is idempotent unconditionally. -/
theorem claim_C2_footer_idempotent_amended (y4 : List Char)
    (standText : Option (List Char)) (S : Sheet)
    (h4 : y4.length = 4) (hdg : y4.all Char.isDigit = true)
    (hcol : ∀ r0, findCopyrightRow S = some r0 →
      isFalsyText standText = false → standColOf y4 S r0 ≠ 1)
    (hstm : ∀ s, standText = some s → isFalsyText standText = false →
      containsSub standMarker s = true)
    (r c : Nat) :
    (footerUpdate y4 standText (footerUpdate y4 standText S)).val r c
      = (footerUpdate y4 standText S).val r c := by
  rcases hf : findCopyrightRow S with - | r0
  · have hid : footerUpdate y4 standText S = S := by
      unfold footerUpdate
      rw [hf]
    rw [hid, hid]
  · obtain ⟨hr01, hr0max, hcr, habove⟩ := findRowDown_some S S.maxRow r0 hf
    cases hfalb : isFalsyText standText with
    | true =>
        have hS1 : footerUpdate y4 standText S
            = setVal S r0 1 (CellVal.vstr (anchorText y4 S r0)) :=
          footerUpdate_falsy_eq y4 standText S r0 hf hfalb
        rw [hS1]
        have hfind1 : findCopyrightRow
            (setVal S r0 1 (CellVal.vstr (anchorText y4 S r0))) = some r0 := by
          unfold findCopyrightRow
          rw [setVal_maxRow]
          apply findRowDown_intro _ S.maxRow r0 hr0max hr01
          · rw [setVal_val, if_pos ⟨rfl, rfl⟩]
            exact anchorText_marker y4 S r0 hcr
          · intro r' hra hrb
            rw [setVal_val, if_neg (fun hh => (show ¬ r' = r0 by omega) hh.1)]
            exact habove r' hra hrb
        have hS2 : footerUpdate y4 standText
              (setVal S r0 1 (CellVal.vstr (anchorText y4 S r0)))
            = setVal (setVal S r0 1 (CellVal.vstr (anchorText y4 S r0))) r0 1
                (CellVal.vstr (anchorText y4
                  (setVal S r0 1 (CellVal.vstr (anchorText y4 S r0))) r0)) :=
          footerUpdate_falsy_eq y4 standText _ r0 hfind1 hfalb
        rw [hS2]
        have hanch : anchorText y4
              (setVal S r0 1 (CellVal.vstr (anchorText y4 S r0))) r0
            = anchorText y4 S r0 := by
          unfold anchorText
          rw [setVal_val, if_pos ⟨rfl, rfl⟩]
          exact subYear_idem y4 h4 hdg _
        rw [hanch]
        simp only [setVal_val]
        by_cases h : r = r0 ∧ c = 1
        · simp [h]
        · simp [h]
    | false =>
        obtain ⟨st, rfl⟩ : ∃ s, standText = some s := by
          cases standText with
          | none => exact absurd hfalb (by simp [isFalsyText])
          | some s => exact ⟨s, rfl⟩
        have hstne : st ≠ [] := by
          intro h
          subst h
          exact absurd hfalb (by simp [isFalsyText])
        have hcol' : standColOf y4 S r0 ≠ 1 := hcol r0 hf hfalb
        have hstmark : containsSub standMarker st = true := hstm st rfl hfalb
        have hchar := footerUpdate_val_char y4 st S r0 hf hstne
        have hfind' := findCopyrightRow_update y4 st S r0 hf hstne hcol'
        have hchar2 := footerUpdate_val_char y4 st
          (footerUpdate y4 (some st) S) r0 hfind' hstne
        have hscupd := standColOf_update y4 st S r0 h4 hdg hf hstne hcol' hstmark
        have ha : (footerUpdate y4 (some st) S).val r0 1
            = CellVal.vstr (anchorText y4 S r0) := by
          rw [hchar r0 1, if_neg (fun hh => hcol' hh.2.symm), if_pos ⟨rfl, rfl⟩]
        have hanch' : anchorText y4 (footerUpdate y4 (some st) S) r0
            = anchorText y4 S r0 := by
          unfold anchorText
          rw [ha]
          exact subYear_idem y4 h4 hdg _
        rw [hchar2 r c, hscupd, hanch', footerUpdate_maxRow, footerUpdate_maxCol]
        by_cases h1 : r = r0 ∧ c = standColOf y4 S r0
        · rw [if_pos h1, hchar r c, if_pos h1]
        · rw [if_neg h1]
          by_cases h2 : r = r0 ∧ c = 1
          · rw [if_pos h2, h2.1, h2.2, ha]
          · rw [if_neg h2]
            by_cases h3 : 1 ≤ r ∧ r ≤ S.maxRow ∧ 1 ≤ c ∧ c ≤ S.maxCol ∧ r ≠ r0
                ∧ standStartB ((footerUpdate y4 (some st) S).val r c) = true
            · exfalso
              have hrne : r ≠ r0 := h3.2.2.2.2.1
              have hv := hchar r c
              rw [if_neg (fun hh => hrne hh.1), if_neg (fun hh => hrne hh.1)] at hv
              by_cases hb : 1 ≤ r ∧ r ≤ S.maxRow ∧ 1 ≤ c ∧ c ≤ S.maxCol ∧ r ≠ r0
                  ∧ standStartB (S.val r c) = true
              · rw [if_pos hb] at hv
                have hcontra := h3.2.2.2.2.2
                rw [hv, standStartB_nil] at hcontra
                exact Bool.false_ne_true hcontra
              · rw [if_neg hb] at hv
                apply hb
                refine ⟨h3.1, h3.2.1, h3.2.2.1, h3.2.2.2.1, hrne, ?_⟩
                have hcontra := h3.2.2.2.2.2
                rwa [hv] at hcontra
            · rw [if_neg h3]

/-- A sheet on which the footer update is not idempotent: the anchor text
itself contains `"Stand:"`, so the stamp overwrites column 1 and the
second run finds a different anchor row. -/
def footerSheetCex : Sheet :=
  { maxRow := 2, maxCol := 1,
    val := fun r c =>
      if r = 1 ∧ c = 1 then CellVal.vstr "(C)opyright 2020 A".toList
      else if r = 2 ∧ c = 1 then
        CellVal.vstr "(C)opyright 2020 Stand: B".toList
      else CellVal.vnone,
    fmt := fun _ _ => "General", merges := [] }

/-- Counterexample to claim C2 as stated (for every sheet and every as-of
text): on `footerSheetCex` the second run changes cell (1, 1) again. -/
theorem claim_C2_counterexample :
    (footerUpdate "2025".toList (some "Stand: X".toList)
        (footerUpdate "2025".toList (some "Stand: X".toList)
          footerSheetCex)).val 1 1
      ≠ (footerUpdate "2025".toList (some "Stand: X".toList)
          footerSheetCex).val 1 1 := by
  decide

/-- A well-formed footer sheet: the anchor text has no `"Stand:"` and the
stamp lands in column 2. -/
def footerSheetW : Sheet :=
  { maxRow := 1, maxCol := 2,
    val := fun r c =>
      if r = 1 ∧ c = 1 then CellVal.vstr "(C)opyright 2020 X".toList
      else if r = 1 ∧ c = 2 then CellVal.vstr "alt Stand: alt".toList
      else CellVal.vnone,
    fmt := fun _ _ => "General", merges := [] }

/-- Witness for claim C2 (amended) on a concrete sheet satisfying its
hypotheses. -/
theorem claim_C2_witness :
    (footerUpdate "2025".toList (some "Stand: 01.01.2025".toList)
        (footerUpdate "2025".toList (some "Stand: 01.01.2025".toList)
          footerSheetW)).val 1 2
      = (footerUpdate "2025".toList (some "Stand: 01.01.2025".toList)
          footerSheetW).val 1 2 :=
  claim_C2_footer_idempotent_amended "2025".toList
    (some "Stand: 01.01.2025".toList) footerSheetW (by decide) (by decide)
    (by
      intro r0 hf hfal
      rw [show findCopyrightRow footerSheetW = some 1 from by decide] at hf
      injection hf with hf
      subst hf
      decide)
    (by
      intro s hs hfal
      injection hs with hs
      subst hs
      decide)
    1 2

/-! ### Table 5: mapping blocks onto the template's sheets -/

/-- `fill_sheet_from_block(ws_t, start_row, end_row)`: find the
destination's first data-like row in column 3; if none, do nothing;
otherwise copy columns `C..H` (3..8) row by row while both the block and
the destination have rows left, i.e. for
`min(end_row + 1 - start_row, max_row_t + 1 - first_data_t)` iterations
of the shared copy loop. -/
def fillSheetFromBlock (raw : Sheet) (wsT : Sheet) (startRow endRow : Nat) :
    Sheet :=
  match findFromTo (fun r => isNumericLike (wsT.val r 3)) 1 wsT.maxRow with
  | none => wsT
  | some fd =>
      copyWindow raw wsT.merges startRow fd
        (min (endRow + 1 - startRow) (wsT.maxRow + 1 - fd)) 3 8 wsT

/-- The per-sheet body of `build_table5_workbook`'s loop: write the month
label (row 5 internal, row 3 external), fill from the block, update the
footer, and format numbers with column `H` (8) excluded. -/
def table5Body (raw : Sheet) (month : CellVal) (y4 : List Char)
    (standText : Option (List Char)) (internalLayout : Bool)
    (b : Nat × Nat) (wsT : Sheet) : Sheet :=
  let ws1 := if internalLayout then setVal wsT 5 1 month else setVal wsT 3 1 month
  formatSheet [8]
    (footerUpdate y4 standText (fillSheetFromBlock raw ws1 b.1 b.2))

/-- `for i, (start, end) in enumerate(block_ranges):` with
`if i >= len(wb.worksheets): break` — process block `i` into sheet `i`,
stopping at the shorter of the two lists. -/
def applyBlocksGo (f : Nat × Nat → Sheet → Sheet) :
    Nat → List (Nat × Nat) → List Sheet → List Sheet
  | _, [], sheets => sheets
  | i, b :: bs, sheets =>
      if h : i < sheets.length then
        applyBlocksGo f (i + 1) bs (sheets.set i (f b (sheets.get ⟨i, h⟩)))
      else sheets

/-- The whole sheet loop of `build_table5_workbook`. -/
def table5Apply (raw : Sheet) (month : CellVal) (y4 : List Char)
    (standText : Option (List Char)) (internalLayout : Bool)
    (blocks : List (Nat × Nat)) (sheets : List Sheet) : List Sheet :=
  applyBlocksGo (table5Body raw month y4 standText internalLayout) 0 blocks sheets

theorem getD_set_self {α : Type} (l : List α) (i : Nat) (x d : α)
    (h : i < l.length) : (l.set i x).getD i d = x := by
  rw [List.getD_eq_get?, List.get?_set_eq_of_lt x h]
  rfl

theorem getD_set_ne {α : Type} (l : List α) (i j : Nat) (x d : α)
    (h : i ≠ j) : (l.set i x).getD j d = l.getD j d := by
  rw [List.getD_eq_get?, List.getD_eq_get?, List.get?_set_ne x l h]

theorem applyBlocksGo_spec (f : Nat × Nat → Sheet → Sheet) (d : Sheet) :
    ∀ (bs : List (Nat × Nat)) (i : Nat) (sheets : List Sheet),
      (applyBlocksGo f i bs sheets).length = sheets.length
      ∧ ∀ j, (applyBlocksGo f i bs sheets).getD j d =
          if i ≤ j ∧ j < i + bs.length ∧ j < sheets.length then
            f (bs.getD (j - i) (0, 0)) (sheets.getD j d)
          else sheets.getD j d := by
  intro bs
  induction bs with
  | nil =>
      intro i sheets
      refine ⟨rfl, fun j => ?_⟩
      rw [if_neg (by simp only [List.length_nil]; omega)]
      rfl
  | cons b bs' ih =>
      intro i sheets
      unfold applyBlocksGo
      by_cases h : i < sheets.length
      · rw [dif_pos h]
        obtain ⟨ihlen, ihval⟩ := ih (i + 1) (sheets.set i (f b (sheets.get ⟨i, h⟩)))
        refine ⟨by rw [ihlen, List.length_set], fun j => ?_⟩
        rw [ihval j]
        by_cases hj : j = i
        · subst hj
          rw [if_neg (by omega), if_pos ⟨le_refl _, by simp, h⟩]
          rw [getD_set_self _ _ _ _ h]
          have : j - j = 0 := by omega
          rw [this]
          rw [List.getD_eq_get _ _ h]
          rfl
        · rw [getD_set_ne _ _ _ _ _ (fun he => hj he.symm), List.length_set]
          by_cases hc : i + 1 ≤ j ∧ j < i + 1 + bs'.length ∧ j < sheets.length
          · rw [if_pos hc, if_pos ⟨by omega, by simp only [List.length_cons]; omega, hc.2.2⟩]
            have : j - i = (j - (i + 1)) + 1 := by omega
            rw [this]
            rfl
          · rw [if_neg hc, if_neg (by
              intro hco
              apply hc
              refine ⟨by omega, ?_, hco.2.2⟩
              simp only [List.length_cons] at hco
              omega)]
      · rw [dif_neg h]
        refine ⟨rfl, fun j => ?_⟩
        rw [if_neg (by omega)]

/-- Claim C9: when the raw sheet yields more blocks than the template has
sheets, the surplus blocks are silently ignored: the sheet list keeps its
length, sheet `j` receives block `j` exactly when
`j < min(number of blocks, number of sheets)`, and every other sheet is
untouched; the loop is a total function, so no error is raised. -/
theorem claim_C9_surplus_blocks_ignored (raw : Sheet) (month : CellVal)
    (y4 : List Char) (standText : Option (List Char)) (internalLayout : Bool)
    (blocks : List (Nat × Nat)) (sheets : List Sheet) (d : Sheet) (j : Nat) :
    (table5Apply raw month y4 standText internalLayout blocks sheets).length
      = sheets.length
    ∧ (j < min blocks.length sheets.length →
      (table5Apply raw month y4 standText internalLayout blocks sheets).getD j d
        = table5Body raw month y4 standText internalLayout
            (blocks.getD j (0, 0)) (sheets.getD j d))
    ∧ (min blocks.length sheets.length ≤ j →
      (table5Apply raw month y4 standText internalLayout blocks sheets).getD j d
        = sheets.getD j d) := by
  obtain ⟨hlen, hval⟩ :=
    applyBlocksGo_spec (table5Body raw month y4 standText internalLayout) d
      blocks 0 sheets
  refine ⟨hlen, fun hj => ?_, fun hj => ?_⟩
  · rw [show table5Apply raw month y4 standText internalLayout blocks sheets
        = applyBlocksGo (table5Body raw month y4 standText internalLayout)
            0 blocks sheets from rfl, hval j]
    rw [if_pos ⟨by omega, by omega, by omega⟩]
    have : j - 0 = j := by omega
    rw [this]
  · rw [show table5Apply raw month y4 standText internalLayout blocks sheets
        = applyBlocksGo (table5Body raw month y4 standText internalLayout)
            0 blocks sheets from rfl, hval j]
    rw [if_neg (by omega)]

/-- A default sheet for list indexing. -/
def emptySheet : Sheet :=
  { maxRow := 0, maxCol := 0, val := fun _ _ => CellVal.vnone,
    fmt := fun _ _ => "", merges := [] }

/-- Witness for claim C9: three blocks, two template sheets — the length
is preserved, the surplus index 2 is untouched, and sheet 0 receives
block 0. -/
theorem claim_C9_witness :
    (table5Apply rawSheetEx CellVal.vnone "2025".toList none true
        [(1, 1), (1, 1), (1, 1)] [textSheetEx, destSheetEx]).length
      = [textSheetEx, destSheetEx].length
    ∧ (table5Apply rawSheetEx CellVal.vnone "2025".toList none true
        [(1, 1), (1, 1), (1, 1)] [textSheetEx, destSheetEx]).getD 2 emptySheet
      = [textSheetEx, destSheetEx].getD 2 emptySheet
    ∧ (table5Apply rawSheetEx CellVal.vnone "2025".toList none true
        [(1, 1), (1, 1), (1, 1)] [textSheetEx, destSheetEx]).getD 0 emptySheet
      = table5Body rawSheetEx CellVal.vnone "2025".toList none true
          ([(1, 1), (1, 1), (1, 1)].getD 0 (0, 0))
          ([textSheetEx, destSheetEx].getD 0 emptySheet) :=
  ⟨(claim_C9_surplus_blocks_ignored rawSheetEx CellVal.vnone "2025".toList none
      true [(1, 1), (1, 1), (1, 1)] [textSheetEx, destSheetEx] emptySheet 2).1,
   (claim_C9_surplus_blocks_ignored rawSheetEx CellVal.vnone "2025".toList none
      true [(1, 1), (1, 1), (1, 1)] [textSheetEx, destSheetEx] emptySheet 2).2.2
     (by decide),
   (claim_C9_surplus_blocks_ignored rawSheetEx CellVal.vnone "2025".toList none
      true [(1, 1), (1, 1), (1, 1)] [textSheetEx, destSheetEx] emptySheet 0).2.1
     (by decide)⟩
